import Mathlib

/-
  Verification development for the molecule-shapes repository.

  The core under study is the VSEPR electron-pair-repulsion solver:
  GeometryConfiguration (ideal unit-vector tables), RealMoleculeShape /
  RealAtomLocation (hand-authored real molecule data), the per-tick update
  policies of VSEPRMolecule / RealMolecule, and MoleculeShapesModel.step.

  JavaScript numbers are embedded as real numbers (ℝ); dot's Vector3 is
  embedded as the structure Vec3 below.  Where a component of the repository
  is referenced but its defining file is not part of the source tree
  (Molecule.js, PairGroup.js, LocalShape.js, AttractorModel.js), the
  corresponding definition is modelled from the specification and carries a
  doc comment starting with "Modelled from the spec:".
-/

/-- Embedding of dot's `Vector3`: a 3-dimensional real vector with fields
`x`, `y`, `z`. -/
structure Vec3 where
  x : ℝ
  y : ℝ
  z : ℝ

instance : Zero Vec3 := ⟨⟨0, 0, 0⟩⟩

instance : Add Vec3 := ⟨fun a b => ⟨a.x + b.x, a.y + b.y, a.z + b.z⟩⟩

instance : Sub Vec3 := ⟨fun a b => ⟨a.x - b.x, a.y - b.y, a.z - b.z⟩⟩

/-- `r • v` embeds `Vector3.times( r )` (componentwise scaling). -/
instance : SMul ℝ Vec3 := ⟨fun r v => ⟨r * v.x, r * v.y, r * v.z⟩⟩

/-- Embedding of `Vector3.magnitude`. -/
noncomputable def Vec3.mag (v : Vec3) : ℝ := Real.sqrt (v.x ^ 2 + v.y ^ 2 + v.z ^ 2)

/-- Embedding of `Vector3.dot`. -/
def Vec3.dot (a b : Vec3) : ℝ := a.x * b.x + a.y * b.y + a.z * b.z

/-- Embedding of `Vector3.normalized` (division of every component by the
magnitude). -/
noncomputable def Vec3.normalized (v : Vec3) : Vec3 := (1 / v.mag) • v

/-
  GeometryConfiguration.js (embedded from the source in src/unnamed/part_007,
  lines 339-448): the table of ideal unit-vector arrangements for steric
  numbers 0..6, and the lookup `getConfiguration`.
-/

/-- The localized geometry-name string keys used by GeometryConfiguration
(`moleculeShapesStrings.geometry.*`), embedded as an inductive tag. -/
inductive GeometryName where
  | empty
  | diatomic
  | linear
  | trigonalPlanar
  | tetrahedral
  | trigonalBipyramidal
  | octahedral
deriving DecidableEq

/-- Embedding of the `GeometryConfiguration` constructor: a name together with
the ordered list of ideal orientations. -/
structure GeometryConfiguration where
  name : GeometryName
  unitVectors : List Vec3

/-- `TETRA_CONST = Math.PI * -19.471220333 / 180`, the constant for the
tetrahedral shape. -/
noncomputable def TETRA_CONST : ℝ := Real.pi * (-19.471220333) / 180

/-- `geometries[0]`: empty configuration. -/
def geometries0 : GeometryConfiguration := ⟨GeometryName.empty, []⟩

/-- `geometries[1]`: diatomic. -/
def geometries1 : GeometryConfiguration := ⟨GeometryName.diatomic, [⟨1, 0, 0⟩]⟩

/-- `geometries[2]`: linear. -/
def geometries2 : GeometryConfiguration :=
  ⟨GeometryName.linear, [⟨1, 0, 0⟩, ⟨-1, 0, 0⟩]⟩

/-- `geometries[3]`: trigonal planar. -/
noncomputable def geometries3 : GeometryConfiguration :=
  ⟨GeometryName.trigonalPlanar,
    [⟨1, 0, 0⟩,
     ⟨Real.cos (Real.pi * 2 / 3), Real.sin (Real.pi * 2 / 3), 0⟩,
     ⟨Real.cos (Real.pi * 4 / 3), Real.sin (Real.pi * 4 / 3), 0⟩]⟩

/-- `geometries[4]`: tetrahedral. -/
noncomputable def geometries4 : GeometryConfiguration :=
  ⟨GeometryName.tetrahedral,
    [⟨0, 0, 1⟩,
     ⟨Real.cos 0 * Real.cos TETRA_CONST, Real.sin 0 * Real.cos TETRA_CONST,
       Real.sin TETRA_CONST⟩,
     ⟨Real.cos (Real.pi * 2 / 3) * Real.cos TETRA_CONST,
       Real.sin (Real.pi * 2 / 3) * Real.cos TETRA_CONST, Real.sin TETRA_CONST⟩,
     ⟨Real.cos (Real.pi * 4 / 3) * Real.cos TETRA_CONST,
       Real.sin (Real.pi * 4 / 3) * Real.cos TETRA_CONST, Real.sin TETRA_CONST⟩]⟩

/-- `geometries[5]`: trigonal bipyramidal; the three equatorial directions
(filled up with lone pairs first) precede the two axial directions. -/
noncomputable def geometries5 : GeometryConfiguration :=
  ⟨GeometryName.trigonalBipyramidal,
    [⟨0, 1, 0⟩,
     ⟨0, Real.cos (Real.pi * 2 / 3), Real.sin (Real.pi * 2 / 3)⟩,
     ⟨0, Real.cos (Real.pi * 4 / 3), Real.sin (Real.pi * 4 / 3)⟩,
     ⟨1, 0, 0⟩,
     ⟨-1, 0, 0⟩]⟩

/-- `geometries[6]`: octahedral (opposites first). -/
def geometries6 : GeometryConfiguration :=
  ⟨GeometryName.octahedral,
    [⟨0, 0, 1⟩, ⟨0, 0, -1⟩, ⟨0, 1, 0⟩, ⟨0, -1, 0⟩, ⟨1, 0, 0⟩, ⟨-1, 0, 0⟩]⟩

/-- Embedding of `GeometryConfiguration.getConfiguration( numberOfGroups )`:
a pure lookup in the module-level `geometries` table, which holds entries for
the integer keys 0..6 only; any other key yields `undefined`, embedded as
`none`.  The table entries are module-level constants built once. -/
noncomputable def getConfiguration (numberOfGroups : ℤ) : Option GeometryConfiguration :=
  if numberOfGroups = 0 then some geometries0
  else if numberOfGroups = 1 then some geometries1
  else if numberOfGroups = 2 then some geometries2
  else if numberOfGroups = 3 then some geometries3
  else if numberOfGroups = 4 then some geometries4
  else if numberOfGroups = 5 then some geometries5
  else if numberOfGroups = 6 then some geometries6
  else none

/- Exact values of the trigonometric constants appearing in the table. -/

/- Magnitude-one lemmas for the shapes of vector used in the table. -/

/- Closed forms of the trigonometric entries of the table. -/

/- Per-configuration facts: lengths, unit magnitude, pairwise distinctness. -/

/-
  RealAtomLocation.js (embedded from src/unnamed/part_006, lines 173-207) and
  the WATER shape of RealMoleculeShape.js (src/js/common/model/RealMoleculeShape.js,
  lines 29-97 and 191-197), together with the bonded-atom placement performed by
  the RealMolecule constructor (src/js/common/view/3d/LocalTexture.js, lines 82-96).
-/

/-- Chemical element tags used by the embedded shapes. -/
inductive ElementTag where
  | O
  | H
deriving DecidableEq

/-- Embedding of `RealAtomLocation`: element, position, derived orientation and
external lone pair count. -/
structure RealAtomLocation where
  element : ElementTag
  position : Vec3
  orientation : Vec3
  lonePairCount : ℕ

/-- Embedding of the `RealAtomLocation` constructor:
`this.orientation = position.magnitude > 0 ? position.normalized() : position.copy()`. -/
noncomputable def mkRealAtomLocation (element : ElementTag) (position : Vec3)
    (lonePairCount : ℕ) : RealAtomLocation :=
  ⟨element, position,
    if 0 < position.mag then position.normalized else position, lonePairCount⟩

/-- `RealMoleculeShape.WATER` uses `radialBondLength = 0.957`. -/
noncomputable def waterRadialBondLength : ℝ := 0.957

/-- `radialAngle = DotUtils.toRadians( 104.5 ) / 2` in the WATER shape. -/
noncomputable def waterRadialAngle : ℝ := 104.5 * Real.pi / 180 / 2

/-- The literal coordinate vector handed to the first `addRadialAtom` call of
the WATER shape: `new Vector3( sin( a ), -cos( a ), 0 ).times( 0.957 )`. -/
noncomputable def waterLiteral1 : Vec3 :=
  waterRadialBondLength • ⟨Real.sin waterRadialAngle, -Real.cos waterRadialAngle, 0⟩

/-- The literal coordinate vector handed to the second `addRadialAtom` call of
the WATER shape: `new Vector3( -( sin( a ) ), -cos( a ), 0 ).times( 0.957 )`. -/
noncomputable def waterLiteral2 : Vec3 :=
  waterRadialBondLength • ⟨-Real.sin waterRadialAngle, -Real.cos waterRadialAngle, 0⟩

/-- The WATER shape's `bondLengthOverride`: the constructor stores
`bondLengthOverride * 5.5` (upscaling the true size to model units), and the
shape is created with `0.957`. -/
noncomputable def waterBondLengthOverride : ℝ := 0.957 * 5.5

/-- The hydrogen `RealAtomLocation` objects of the WATER shape as constructed
(before `addRadialAtom` rescales their positions). -/
noncomputable def waterAtomH1 : RealAtomLocation :=
  mkRealAtomLocation ElementTag.H waterLiteral1 0

/-- Second hydrogen of the WATER shape. -/
noncomputable def waterAtomH2 : RealAtomLocation :=
  mkRealAtomLocation ElementTag.H waterLiteral2 0

/-- Embedding of the position rescaling in `addRadialAtom` with
`USE_SIMPLIFIED_BOND_LENGTH = true`:
`atom.position.normalize().multiplyScalar( this.bondLengthOverride )`.
The orientation was already computed by the constructor and is unchanged. -/
noncomputable def addRadialAtomRescale (bondLengthOverride : ℝ)
    (atom : RealAtomLocation) : RealAtomLocation :=
  { atom with position := bondLengthOverride • atom.position.normalized }

/-- The first hydrogen after `addRadialAtom` processed it. -/
noncomputable def waterAtomH1Scaled : RealAtomLocation :=
  addRadialAtomRescale waterBondLengthOverride waterAtomH1

/-- The second hydrogen after `addRadialAtom` processed it. -/
noncomputable def waterAtomH2Scaled : RealAtomLocation :=
  addRadialAtomRescale waterBondLengthOverride waterAtomH2

/-- Embedding of the bonded-atom placement in the `RealMolecule` constructor:
`bondLength = atom.position.magnitude(); atomLocation = atom.orientation.times( bondLength )`,
the position given to the bonded atom's `PairGroup`. -/
noncomputable def realMoleculeBondedPosition (atom : RealAtomLocation) : Vec3 :=
  atom.position.mag • atom.orientation

/-- Position of the first bonded hydrogen of the constructed WATER molecule. -/
noncomputable def waterBondedPosition1 : Vec3 :=
  realMoleculeBondedPosition waterAtomH1Scaled

/-- Position of the second bonded hydrogen of the constructed WATER molecule. -/
noncomputable def waterBondedPosition2 : Vec3 :=
  realMoleculeBondedPosition waterAtomH2Scaled

/-
  The per-tick solver.  The orchestrating update policies are embedded from
  the source: `VSEPRMolecule.update` (src/js/common/view/3d/LocalMaterial.js,
  lines 141-174) and `RealMolecule.update` (src/js/common/view/3d/LocalTexture.js,
  lines 122-137).  Their collaborators Molecule.js, PairGroup.js, LocalShape.js
  and AttractorModel.js are not part of the source tree, so those operations
  are modelled from the specification (sections 2, 4.1, 4.4, 4.5, 5, 7).
  Besides the successor state, each update also returns the list of
  attraction/repulsion/angle-correction invocations it performed, in order.
-/

/-- One attraction/repulsion/angle-correction invocation performed during an
update tick; pair groups are identified by their unique `id`. -/
inductive UpdateCall where
  | attract (atomId : ℕ)
  | repulse (groupId : ℕ) (otherId : ℕ) (trueLengthsRatioOverride : ℝ)
  | anglePass (atomId : ℕ)

/-- Modelled from the spec (section 3; PairGroup.js is not in the source
tree): a pair group owns a unique id, position, velocity, a lone-pair flag, a
user-controlled flag, and whether it is the central atom. -/
structure PairGroup where
  id : ℕ
  position : Vec3
  velocity : Vec3
  isLonePair : Bool
  userControlled : Bool
  isCentralAtom : Bool

/-- One radial group of the molecule together with its terminal lone pairs
(the bond graph rooted at the central atom is a tree of depth at most 2,
spec section 3). -/
structure RadialEntry where
  group : PairGroup
  terminals : List PairGroup

/-- Modelled from the spec (section 3; Molecule.js is not in the source
tree): the molecule's rooted tree, a central atom with its radial groups and
their terminal lone pairs. -/
structure MoleculeState where
  centralAtom : PairGroup
  radial : List RadialEntry

/-- Modelled from the spec (sections 4.1 and 5; PairGroup.js is not in the
source tree): explicit-Euler integration of a group's velocity into its
position.  A user-controlled group is excluded from the physics pass, and the
central atom never moves. -/
def PairGroup.stepForward (dt : ℝ) (g : PairGroup) : PairGroup :=
  if g.userControlled || g.isCentralAtom then g
  else { g with position := g.position + dt • g.velocity }

/-- Modelled from the spec (section 4.5; Molecule.js is not in the source
tree): the base `Molecule.prototype.update` steps every group forward; it
performs no attraction or repulsion calls itself. -/
def moleculeBaseUpdate (m : MoleculeState) (dt : ℝ) : MoleculeState :=
  { m with
    radial := m.radial.map fun e =>
      { group := e.group.stepForward dt
        terminals := e.terminals.map (PairGroup.stepForward dt) } }

/-- Orientation of a point as seen from a center, `(p - c).normalized()`, with
the zero vector for a degenerate zero-length difference (spec section 7). -/
noncomputable def orientationFrom (c p : Vec3) : Vec3 :=
  if 0 < (p - c).mag then (p - c).normalized else 0

/-- Modelled from the spec (sections 4.3 and 9; AttractorModel.js is not in
the source tree, and the spec leaves the rotation-fit algorithm open): an
attractor fit maps the list of current orientations to the list of matched
ideal-rotated target orientations together with the residual fit error.  The
solver below is parametric in this fit. -/
def AttractorFit : Type := List Vec3 → List Vec3 × ℝ

/-- Modelled from the spec (section 4.4): the fraction of the way toward its
target that a neighbor is nudged during one tick of length `dt`. -/
noncomputable def nudgeFraction (dt : ℝ) : ℝ := min 1 dt

/-- Modelled from the spec (sections 4.4 and 5): nudge one neighbor group a
fraction of the way toward its matched target orientation (held at its current
distance from the center).  Skipped for user-controlled groups and for the
central atom. -/
noncomputable def nudgeGroup (f : ℝ) (c : Vec3) (t : Vec3) (g : PairGroup) :
    PairGroup :=
  if g.userControlled || g.isCentralAtom then g
  else
    let r := (g.position - c).mag
    let target := c + r • t
    { g with position := g.position + f • (target - g.position) }

/-- Nudge a list of groups toward the positionally matched targets; groups
without a matched target are left unchanged. -/
noncomputable def nudgeGroups (f : ℝ) (c : Vec3) :
    List Vec3 → List PairGroup → List PairGroup
  | _, [] => []
  | [], g :: gs => g :: nudgeGroups f c [] gs
  | t :: ts, g :: gs => nudgeGroup f c t g :: nudgeGroups f c ts gs

/-- Modelled from the spec (section 4.4; LocalShape.js is not in the source
tree): `applyAttraction( dt )` computes the attractor fit of the current
orientations, nudges each neighbor toward its matched target, and returns the
pre-nudge residual error. -/
noncomputable def applyAttraction (attr : AttractorFit) (dt : ℝ) (c : Vec3)
    (gs : List PairGroup) : List PairGroup × ℝ :=
  let fit := attr (gs.map fun g => orientationFrom c g.position)
  (nudgeGroups (nudgeFraction dt) c fit.1 gs, fit.2)

/-- Modelled from the spec (section 4.4): one neighbor's purely angular
correction around the reference atom: its direction is blended toward the
matched target and renormalized, so its distance from the reference atom is
kept.  Skipped for user-controlled groups and for the central atom. -/
noncomputable def angleAdjustGroup (f : ℝ) (c : Vec3) (t : Vec3)
    (g : PairGroup) : PairGroup :=
  if g.userControlled || g.isCentralAtom then g
  else
    let w := g.position - c
    let r := w.mag
    let u := if 0 < r then w.normalized else 0
    let blend := (1 - f) • u + f • t
    let d := if 0 < blend.mag then blend.normalized else u
    { g with position := c + r • d }

/-- Angularly adjust a list of groups toward the positionally matched targets;
groups without a matched target are left unchanged. -/
noncomputable def angleAdjustGroups (f : ℝ) (c : Vec3) :
    List Vec3 → List PairGroup → List PairGroup
  | _, [] => []
  | [], g :: gs => g :: angleAdjustGroups f c [] gs
  | t :: ts, g :: gs => angleAdjustGroup f c t g :: angleAdjustGroups f c ts gs

/-- Modelled from the spec (section 4.4; LocalShape.js is not in the source
tree): `applyAngleAttractionRepulsion( dt )` applies the attractor fit purely
as an angular correction to the atom's dependent neighbors; the parent
central atom is never repositioned by it. -/
noncomputable def applyAngleAttractionRepulsion (attr : AttractorFit) (dt : ℝ)
    (c : Vec3) (gs : List PairGroup) : List PairGroup :=
  let fit := attr (gs.map fun g => orientationFrom c g.position)
  angleAdjustGroups (nudgeFraction dt) c fit.1 gs

/-- Modelled from the spec (sections 4.1 and 7): the repulsive impulse one
tick contributes to a group's velocity, an inverse-square force along the
separation direction, with the distance clamped away from zero and blended
toward a common unit-sphere distance by `trueLengthsRatioOverride`. -/
noncomputable def repulseImpulse (dt ratio : ℝ) (selfPos otherPos : Vec3) :
    Vec3 :=
  let diff := selfPos - otherPos
  let d := max (1 / 1000) diff.mag
  let dEff := (1 - ratio) * d + ratio * min d 1
  ((dt / (dEff * dEff)) / d) • diff

/-- Modelled from the spec (section 4.1; PairGroup.js is not in the source
tree): `repulseFrom( other, dt, trueLengthsRatioOverride )` adds a repulsive
impulse to this group's velocity; it is a no-op if this or the other group is
user-controlled, and the central atom never accelerates. -/
noncomputable def PairGroup.repulseFrom (g other : PairGroup)
    (dt ratio : ℝ) : PairGroup :=
  if g.userControlled || other.userControlled || g.isCentralAtom then g
  else
    { g with velocity := g.velocity + repulseImpulse dt ratio g.position other.position }

/-- The inner repulsion loop of `VSEPRMolecule.update` for one radial group:
`group.repulseFrom( otherGroup, dt, trueLengthsRatioOverride )` over all other
groups, guarded by `otherGroup !== group && group !== this.centralAtom`
(groups are compared by id). -/
noncomputable def repulseFromAll (dt ratio : ℝ) (centralId : ℕ)
    (all : List PairGroup) (g : PairGroup) : PairGroup :=
  all.foldl
    (fun acc o =>
      if o.id ≠ g.id ∧ g.id ≠ centralId then acc.repulseFrom o dt ratio else acc)
    g

/-- The `repulse` calls emitted by the double loop of `VSEPRMolecule.update`,
in loop order. -/
noncomputable def repulseTrace (ratio : ℝ) (centralId : ℕ)
    (all : List PairGroup) : List UpdateCall :=
  all.flatMap fun g =>
    all.flatMap fun o =>
      if o.id ≠ g.id ∧ g.id ≠ centralId
      then [UpdateCall.repulse g.id o.id ratio] else []

/-- Write a list of updated radial groups back into the radial entries
(positional). -/
def setGroups : List RadialEntry → List PairGroup → List RadialEntry
  | [], _ => []
  | e :: es, [] => e :: setGroups es []
  | e :: es, g :: gs => { e with group := g } :: setGroups es gs

/-- `trueLengthsRatioOverride = Math.max( 0, Math.min( 1, Math.log( error + 1 ) - 0.5 ) )`
from `VSEPRMolecule.update` (LocalMaterial.js line 155). -/
noncomputable def trueLengthsRatioOverrideOf (error : ℝ) : ℝ :=
  max 0 (min 1 (Real.log (error + 1) - 0.5))

/-- The residual error returned by `applyAttraction` for the central atom's
local shape during `VSEPRMolecule.update`. -/
noncomputable def applyAttractionError (attr : AttractorFit) (dt : ℝ)
    (c : Vec3) (gs : List PairGroup) : ℝ :=
  (applyAttraction attr dt c gs).2

/-- Embedding of `VSEPRMolecule.update( dt )` (LocalMaterial.js lines
141-174): first the base `Molecule.prototype.update`, then for every atom
with more than one neighbor either the central-atom policy (attraction toward
the ideal configuration followed by the pairwise repulsion double loop) or
the angle-based correction for radial atoms carrying terminal lone pairs.
Atoms with at most one neighbor are untouched.  Returns the successor state
and the calls performed. -/
noncomputable def vseprUpdate (attr : AttractorFit) (m : MoleculeState)
    (dt : ℝ) : MoleculeState × List UpdateCall :=
  let m1 := moleculeBaseUpdate m dt
  let central := m1.centralAtom
  let step2 : MoleculeState × List UpdateCall :=
    if 1 < m1.radial.length then
      let gs := m1.radial.map (·.group)
      let attracted := applyAttraction attr dt central.position gs
      let ratio := trueLengthsRatioOverrideOf attracted.2
      let repulsed := attracted.1.map (repulseFromAll dt ratio central.id attracted.1)
      (⟨central, setGroups m1.radial repulsed⟩,
        UpdateCall.attract central.id :: repulseTrace ratio central.id attracted.1)
    else (m1, [])
  let withAngles := step2.1.radial.map fun e =>
    if 1 < 1 + e.terminals.length then
      ({ e with
          terminals := applyAngleAttractionRepulsion attr dt e.group.position e.terminals },
        [UpdateCall.anglePass e.group.id])
    else (e, ([] : List UpdateCall))
  (⟨step2.1.centralAtom, withAngles.map Prod.fst⟩,
    step2.2 ++ (withAngles.map Prod.snd).flatten)

/-- Embedding of `RealMolecule.update( tpf )` (LocalTexture.js lines
122-137): the base `Molecule.prototype.update` followed, for every atom with
more than one neighbor, by `applyAngleAttractionRepulsion` on that atom's
local shape — and nothing else.  Returns the successor state and the calls
performed. -/
noncomputable def realMoleculeUpdate (attr : AttractorFit) (m : MoleculeState)
    (dt : ℝ) : MoleculeState × List UpdateCall :=
  let m1 := moleculeBaseUpdate m dt
  let central := m1.centralAtom
  let step2 : MoleculeState × List UpdateCall :=
    if 1 < m1.radial.length then
      (⟨central,
          setGroups m1.radial
            (applyAngleAttractionRepulsion attr dt central.position
              (m1.radial.map (·.group)))⟩,
        [UpdateCall.anglePass central.id])
    else (m1, [])
  let withAngles := step2.1.radial.map fun e =>
    if 1 < 1 + e.terminals.length then
      ({ e with
          terminals := applyAngleAttractionRepulsion attr dt e.group.position e.terminals },
        [UpdateCall.anglePass e.group.id])
    else (e, ([] : List UpdateCall))
  (⟨step2.1.centralAtom, withAngles.map Prod.fst⟩,
    step2.2 ++ (withAngles.map Prod.snd).flatten)

/-- Embedding of `MoleculeShapesModel.step( dt )` (src/unnamed/part_005,
lines 48-52): `this.moleculeProperty.get().update( Math.min( dt, 0.2 ) )`,
parametric in the molecule's update policy. -/
def moleculeShapesModelStep {M : Type} (update : M → ℝ → M) (molecule : M)
    (dt : ℝ) : M :=
  update molecule (min dt 0.2)

/-
  Claim-side descriptions used to state the properties.
-/

/-- Every ordered pair of distinct elements of a list, in lexicographic loop
order. -/
def orderedDistinctPairs (l : List ℕ) : List (ℕ × ℕ) :=
  l.flatMap fun a => l.flatMap fun b => if a ≠ b then [(a, b)] else []

/-- Whether an update call is a `repulseFrom` invocation. -/
def UpdateCall.isRepulse : UpdateCall → Bool
  | .repulse _ _ _ => true
  | _ => false

/-- The ids of the radial groups of a molecule state. -/
def radialIds (m : MoleculeState) : List ℕ := m.radial.map (·.group.id)

/-- The ids of the atoms of a molecule state that have more than one
neighbor: the central atom when it has at least two radial groups, and every
radial atom carrying at least one terminal lone pair. -/
def manyNeighborAtomIds (m : MoleculeState) : List ℕ :=
  (if 1 < m.radial.length then [m.centralAtom.id] else [])
    ++ (m.radial.filter fun e => 1 < 1 + e.terminals.length).map (·.group.id)

/-- An update from `m` to `m2` leaves every user-controlled group's position
unchanged (groups matched positionally). -/
def preservesControlledPositions (m m2 : MoleculeState) : Prop :=
  (m.centralAtom.userControlled = true →
      m2.centralAtom.position = m.centralAtom.position)
    ∧ ∀ i : ℕ, ∀ e ∈ m.radial.get? i,
        ∃ e2 ∈ m2.radial.get? i,
          (e.group.userControlled = true →
              e2.group.position = e.group.position)
            ∧ ∀ j : ℕ, ∀ t ∈ e.terminals.get? j,
                ∃ t2 ∈ e2.terminals.get? j,
                  t.userControlled = true → t2.position = t.position

/-
  Concrete sample data used to instantiate the solver theorems.
-/

/-- A concrete attractor fit: the targets are the current orientations and
the residual error is 0 (the configuration is reported as an exact fit). -/
def attractorFitId : AttractorFit := fun orientations => (orientations, 0)

/-- Sample central atom: id 0, at the origin, not user-controlled. -/
def sampleCentral : PairGroup := ⟨0, 0, 0, false, false, true⟩

/-- Sample radial group A: id 1, at (2,0,0) with velocity (1,0,0), not
user-controlled. -/
def sampleGroupA : PairGroup := ⟨1, ⟨2, 0, 0⟩, ⟨1, 0, 0⟩, false, false, false⟩

/-- Sample radial group B: id 2, at (0,2,0), user-controlled (being
dragged). -/
def sampleGroupB : PairGroup := ⟨2, ⟨0, 2, 0⟩, 0, false, true, false⟩

/-- Sample molecule: the central atom with radial groups A and B. -/
def sampleMolecule : MoleculeState :=
  ⟨sampleCentral, [⟨sampleGroupA, []⟩, ⟨sampleGroupB, []⟩]⟩

/-- Sample radial group A after one base-update tick of length 1: it has
moved by its velocity to (3,0,0). -/
def sampleGroupA1 : PairGroup := ⟨1, ⟨3, 0, 0⟩, ⟨1, 0, 0⟩, false, false, false⟩

/-- Sample radial group C: id 3, at (0,0,2), at rest, not user-controlled. -/
def sampleGroupC : PairGroup := ⟨3, ⟨0, 0, 2⟩, 0, false, false, false⟩

/-- Sample molecule at rest (all velocities zero), as a RealMolecule state. -/
def sampleMoleculeStill : MoleculeState :=
  ⟨sampleCentral, [⟨sampleGroupC, []⟩, ⟨sampleGroupB, []⟩]⟩

@[simp] theorem Vec3.zero_x : (0 : Vec3).x = 0 := rfl

@[simp] theorem Vec3.zero_y : (0 : Vec3).y = 0 := rfl

@[simp] theorem Vec3.zero_z : (0 : Vec3).z = 0 := rfl

@[simp] theorem Vec3.add_x (a b : Vec3) : (a + b).x = a.x + b.x := rfl

@[simp] theorem Vec3.add_y (a b : Vec3) : (a + b).y = a.y + b.y := rfl

@[simp] theorem Vec3.add_z (a b : Vec3) : (a + b).z = a.z + b.z := rfl

@[simp] theorem Vec3.sub_x (a b : Vec3) : (a - b).x = a.x - b.x := rfl

@[simp] theorem Vec3.sub_y (a b : Vec3) : (a - b).y = a.y - b.y := rfl

@[simp] theorem Vec3.sub_z (a b : Vec3) : (a - b).z = a.z - b.z := rfl

@[simp] theorem Vec3.smul_x (r : ℝ) (v : Vec3) : (r • v).x = r * v.x := rfl

@[simp] theorem Vec3.smul_y (r : ℝ) (v : Vec3) : (r • v).y = r * v.y := rfl

@[simp] theorem Vec3.smul_z (r : ℝ) (v : Vec3) : (r • v).z = r * v.z := rfl

theorem Vec3.ext_iff {a b : Vec3} : a = b ↔ a.x = b.x ∧ a.y = b.y ∧ a.z = b.z := by
  constructor
  · intro h; subst h; exact ⟨rfl, rfl, rfl⟩
  · rintro ⟨hx, hy, hz⟩; cases a; cases b; simp_all

theorem Vec3.mag_nonneg (v : Vec3) : 0 ≤ v.mag := Real.sqrt_nonneg _

theorem Vec3.mag_zero : (0 : Vec3).mag = 0 := by
  simp [Vec3.mag]

theorem Vec3.mag_eq_zero_iff {v : Vec3} : v.mag = 0 ↔ v = 0 := by
  constructor
  · intro h
    have hsum : v.x ^ 2 + v.y ^ 2 + v.z ^ 2 = 0 := by
      have hnn : 0 ≤ v.x ^ 2 + v.y ^ 2 + v.z ^ 2 := by positivity
      have := Real.sqrt_eq_zero hnn |>.mp h
      exact this
    have hx : v.x = 0 := by nlinarith [sq_nonneg v.x, sq_nonneg v.y, sq_nonneg v.z]
    have hy : v.y = 0 := by nlinarith [sq_nonneg v.x, sq_nonneg v.y, sq_nonneg v.z]
    have hz : v.z = 0 := by nlinarith [sq_nonneg v.x, sq_nonneg v.y, sq_nonneg v.z]
    exact Vec3.ext_iff.mpr ⟨hx, hy, hz⟩
  · intro h; subst h; exact Vec3.mag_zero

theorem Vec3.mag_pos_iff {v : Vec3} : 0 < v.mag ↔ v ≠ 0 := by
  constructor
  · intro h hv
    rw [hv, Vec3.mag_zero] at h
    exact lt_irrefl 0 h
  · intro h
    rcases lt_or_eq_of_le (Vec3.mag_nonneg v) with h' | h'
    · exact h'
    · exact absurd (Vec3.mag_eq_zero_iff.mp h'.symm) h

theorem Vec3.mag_smul (r : ℝ) (v : Vec3) : (r • v).mag = |r| * v.mag := by
  unfold Vec3.mag
  simp only [Vec3.smul_x, Vec3.smul_y, Vec3.smul_z]
  rw [show (r * v.x) ^ 2 + (r * v.y) ^ 2 + (r * v.z) ^ 2
      = r ^ 2 * (v.x ^ 2 + v.y ^ 2 + v.z ^ 2) by ring]
  rw [Real.sqrt_mul (sq_nonneg r), Real.sqrt_sq_eq_abs]

theorem Vec3.mag_normalized {v : Vec3} (h : v ≠ 0) : v.normalized.mag = 1 := by
  have hpos : 0 < v.mag := Vec3.mag_pos_iff.mpr h
  unfold Vec3.normalized
  rw [Vec3.mag_smul]
  rw [abs_of_pos (by positivity : (0:ℝ) < 1 / v.mag)]
  field_simp

theorem Vec3.smul_smul (r s : ℝ) (v : Vec3) : r • (s • v) = (r * s) • v := by
  apply Vec3.ext_iff.mpr
  simp [mul_assoc]

theorem Vec3.one_smul (v : Vec3) : (1 : ℝ) • v = v := by
  apply Vec3.ext_iff.mpr
  simp

theorem Vec3.smul_zero_vec (r : ℝ) : r • (0 : Vec3) = 0 := by
  apply Vec3.ext_iff.mpr
  simp

theorem Vec3.zero_smul_vec (v : Vec3) : (0 : ℝ) • v = 0 := by
  apply Vec3.ext_iff.mpr
  simp

theorem Vec3.add_zero_vec (v : Vec3) : v + 0 = v := by
  apply Vec3.ext_iff.mpr
  simp

theorem Vec3.sub_zero_vec (v : Vec3) : v - 0 = v := by
  apply Vec3.ext_iff.mpr
  simp

theorem cos_two_thirds_pi : Real.cos (Real.pi * 2 / 3) = -(1 / 2) := by
  rw [show Real.pi * 2 / 3 = Real.pi - Real.pi / 3 by ring, Real.cos_pi_sub,
    Real.cos_pi_div_three]

theorem sin_two_thirds_pi : Real.sin (Real.pi * 2 / 3) = Real.sqrt 3 / 2 := by
  rw [show Real.pi * 2 / 3 = Real.pi - Real.pi / 3 by ring, Real.sin_pi_sub,
    Real.sin_pi_div_three]

theorem cos_four_thirds_pi : Real.cos (Real.pi * 4 / 3) = -(1 / 2) := by
  rw [show Real.pi * 4 / 3 = Real.pi + Real.pi / 3 by ring, Real.cos_add,
    Real.cos_pi, Real.sin_pi, Real.cos_pi_div_three]
  norm_num

theorem sin_four_thirds_pi : Real.sin (Real.pi * 4 / 3) = -(Real.sqrt 3 / 2) := by
  rw [show Real.pi * 4 / 3 = Real.pi + Real.pi / 3 by ring, Real.sin_add,
    Real.cos_pi, Real.sin_pi, Real.sin_pi_div_three]
  ring

theorem tetra_const_neg : TETRA_CONST < 0 := by
  unfold TETRA_CONST
  nlinarith [Real.pi_pos]

theorem tetra_const_gt : -(Real.pi / 2) < TETRA_CONST := by
  unfold TETRA_CONST
  nlinarith [Real.pi_pos]

theorem cos_tetra_const_pos : 0 < Real.cos TETRA_CONST := by
  apply Real.cos_pos_of_mem_Ioo
  constructor
  · exact tetra_const_gt
  · exact lt_trans tetra_const_neg (by positivity)

theorem sin_tetra_const_neg : Real.sin TETRA_CONST < 0 := by
  apply Real.sin_neg_of_neg_of_neg_pi_lt tetra_const_neg
  have h := tetra_const_gt
  nlinarith [Real.pi_pos]

theorem mag_cos_sin_zero (θ : ℝ) : Vec3.mag ⟨Real.cos θ, Real.sin θ, 0⟩ = 1 := by
  unfold Vec3.mag
  rw [show Real.cos θ ^ 2 + Real.sin θ ^ 2 + (0:ℝ) ^ 2
      = Real.sin θ ^ 2 + Real.cos θ ^ 2 by ring, Real.sin_sq_add_cos_sq,
    Real.sqrt_one]

theorem mag_zero_cos_sin (θ : ℝ) : Vec3.mag ⟨0, Real.cos θ, Real.sin θ⟩ = 1 := by
  unfold Vec3.mag
  rw [show (0:ℝ) ^ 2 + Real.cos θ ^ 2 + Real.sin θ ^ 2
      = Real.sin θ ^ 2 + Real.cos θ ^ 2 by ring, Real.sin_sq_add_cos_sq,
    Real.sqrt_one]

theorem mag_tetra_vector (θ φ : ℝ) :
    Vec3.mag ⟨Real.cos θ * Real.cos φ, Real.sin θ * Real.cos φ, Real.sin φ⟩ = 1 := by
  unfold Vec3.mag
  have key : (Real.cos θ * Real.cos φ) ^ 2 + (Real.sin θ * Real.cos φ) ^ 2
      + Real.sin φ ^ 2 = 1 := by
    calc (Real.cos θ * Real.cos φ) ^ 2 + (Real.sin θ * Real.cos φ) ^ 2
        + Real.sin φ ^ 2
        = (Real.sin θ ^ 2 + Real.cos θ ^ 2) * Real.cos φ ^ 2 + Real.sin φ ^ 2 := by
          ring
      _ = 1 * Real.cos φ ^ 2 + Real.sin φ ^ 2 := by rw [Real.sin_sq_add_cos_sq]
      _ = Real.sin φ ^ 2 + Real.cos φ ^ 2 := by ring
      _ = 1 := Real.sin_sq_add_cos_sq φ
  rw [key, Real.sqrt_one]

theorem mag_unit_x : Vec3.mag ⟨1, 0, 0⟩ = 1 := by
  unfold Vec3.mag
  norm_num

theorem mag_neg_unit_x : Vec3.mag ⟨-1, 0, 0⟩ = 1 := by
  unfold Vec3.mag
  norm_num

theorem mag_unit_y : Vec3.mag ⟨0, 1, 0⟩ = 1 := by
  unfold Vec3.mag
  norm_num

theorem mag_neg_unit_y : Vec3.mag ⟨0, -1, 0⟩ = 1 := by
  unfold Vec3.mag
  norm_num

theorem mag_unit_z : Vec3.mag ⟨0, 0, 1⟩ = 1 := by
  unfold Vec3.mag
  norm_num

theorem mag_neg_unit_z : Vec3.mag ⟨0, 0, -1⟩ = 1 := by
  unfold Vec3.mag
  norm_num

theorem geometries3_unitVectors :
    geometries3.unitVectors
      = [⟨1, 0, 0⟩, ⟨-(1 / 2), Real.sqrt 3 / 2, 0⟩,
         ⟨-(1 / 2), -(Real.sqrt 3 / 2), 0⟩] := by
  simp [geometries3, cos_two_thirds_pi, sin_two_thirds_pi, cos_four_thirds_pi,
    sin_four_thirds_pi]

theorem geometries4_unitVectors :
    geometries4.unitVectors
      = [⟨0, 0, 1⟩,
         ⟨Real.cos TETRA_CONST, 0, Real.sin TETRA_CONST⟩,
         ⟨-(1 / 2) * Real.cos TETRA_CONST, Real.sqrt 3 / 2 * Real.cos TETRA_CONST,
           Real.sin TETRA_CONST⟩,
         ⟨-(1 / 2) * Real.cos TETRA_CONST,
           -(Real.sqrt 3 / 2) * Real.cos TETRA_CONST, Real.sin TETRA_CONST⟩] := by
  simp [geometries4, cos_two_thirds_pi, sin_two_thirds_pi, cos_four_thirds_pi,
    sin_four_thirds_pi]

theorem geometries5_unitVectors :
    geometries5.unitVectors
      = [⟨0, 1, 0⟩, ⟨0, -(1 / 2), Real.sqrt 3 / 2⟩,
         ⟨0, -(1 / 2), -(Real.sqrt 3 / 2)⟩, ⟨1, 0, 0⟩, ⟨-1, 0, 0⟩] := by
  simp [geometries5, cos_two_thirds_pi, sin_two_thirds_pi, cos_four_thirds_pi,
    sin_four_thirds_pi]

theorem vne_of_x {a b : Vec3} (h : a.x ≠ b.x) : a ≠ b :=
  fun he => h (by rw [he])

theorem vne_of_y {a b : Vec3} (h : a.y ≠ b.y) : a ≠ b :=
  fun he => h (by rw [he])

theorem vne_of_z {a b : Vec3} (h : a.z ≠ b.z) : a ≠ b :=
  fun he => h (by rw [he])

theorem sqrt_three_pos : 0 < Real.sqrt 3 := Real.sqrt_pos.mpr (by norm_num)

theorem geometries0_facts :
    geometries0.unitVectors.length = 0
      ∧ (∀ v ∈ geometries0.unitVectors, v.mag = 1) := by
  refine ⟨rfl, ?_⟩
  intro v hv
  simp [geometries0] at hv

theorem geometries1_facts :
    geometries1.unitVectors.length = 1
      ∧ (∀ v ∈ geometries1.unitVectors, v.mag = 1) := by
  refine ⟨rfl, ?_⟩
  intro v hv
  simp [geometries1] at hv
  subst hv
  exact mag_unit_x

theorem geometries2_facts :
    geometries2.unitVectors.length = 2
      ∧ (∀ v ∈ geometries2.unitVectors, v.mag = 1)
      ∧ geometries2.unitVectors.Pairwise (· ≠ ·) := by
  refine ⟨rfl, ?_, ?_⟩
  · intro v hv
    simp [geometries2] at hv
    rcases hv with h | h <;> subst h
    · exact mag_unit_x
    · exact mag_neg_unit_x
  · refine List.Pairwise.cons ?_ (List.Pairwise.cons ?_ List.Pairwise.nil)
    · intro b hb
      rw [List.mem_singleton] at hb
      subst hb
      exact vne_of_x (by norm_num)
    · intro b hb
      exact absurd hb (List.not_mem_nil b)

theorem geometries3_facts :
    geometries3.unitVectors.length = 3
      ∧ (∀ v ∈ geometries3.unitVectors, v.mag = 1)
      ∧ geometries3.unitVectors.Pairwise (· ≠ ·) := by
  refine ⟨rfl, ?_, ?_⟩
  · intro v hv
    simp [geometries3] at hv
    rcases hv with h | h | h <;> subst h
    · exact mag_unit_x
    · exact mag_cos_sin_zero _
    · exact mag_cos_sin_zero _
  · rw [geometries3_unitVectors]
    have h3 := sqrt_three_pos
    refine List.Pairwise.cons ?_ (List.Pairwise.cons ?_
      (List.Pairwise.cons ?_ List.Pairwise.nil))
    · intro b hb
      rcases List.mem_cons.mp hb with h | h
      · subst h; exact vne_of_x (by norm_num)
      · rw [List.mem_singleton] at h; subst h; exact vne_of_x (by norm_num)
    · intro b hb
      rw [List.mem_singleton] at hb
      subst hb
      exact vne_of_y (by simp; nlinarith)
    · intro b hb
      exact absurd hb (List.not_mem_nil b)

theorem geometries4_facts :
    geometries4.unitVectors.length = 4
      ∧ (∀ v ∈ geometries4.unitVectors, v.mag = 1)
      ∧ geometries4.unitVectors.Pairwise (· ≠ ·) := by
  refine ⟨rfl, ?_, ?_⟩
  · intro v hv
    unfold geometries4 at hv
    simp only [List.mem_cons, List.not_mem_nil, or_false] at hv
    rcases hv with h | h | h | h <;> subst h
    · exact mag_unit_z
    · exact mag_tetra_vector 0 TETRA_CONST
    · exact mag_tetra_vector _ _
    · exact mag_tetra_vector _ _
  · rw [geometries4_unitVectors]
    have h3 := sqrt_three_pos
    have hc := cos_tetra_const_pos
    have hs := sin_tetra_const_neg
    refine List.Pairwise.cons ?_ (List.Pairwise.cons ?_
      (List.Pairwise.cons ?_ (List.Pairwise.cons ?_ List.Pairwise.nil)))
    · intro b hb
      rcases List.mem_cons.mp hb with h | h
      · subst h
        refine vne_of_z ?_
        show (1 : ℝ) ≠ Real.sin TETRA_CONST
        intro heq; nlinarith
      rcases List.mem_cons.mp h with h' | h'
      · subst h'
        refine vne_of_z ?_
        show (1 : ℝ) ≠ Real.sin TETRA_CONST
        intro heq; nlinarith
      · rw [List.mem_singleton] at h'
        subst h'
        refine vne_of_z ?_
        show (1 : ℝ) ≠ Real.sin TETRA_CONST
        intro heq; nlinarith
    · intro b hb
      rcases List.mem_cons.mp hb with h | h
      · subst h
        refine vne_of_y ?_
        show (0 : ℝ) ≠ Real.sqrt 3 / 2 * Real.cos TETRA_CONST
        intro heq; nlinarith
      · rw [List.mem_singleton] at h
        subst h
        refine vne_of_y ?_
        show (0 : ℝ) ≠ -(Real.sqrt 3 / 2) * Real.cos TETRA_CONST
        intro heq; nlinarith
    · intro b hb
      rw [List.mem_singleton] at hb
      subst hb
      refine vne_of_y ?_
      show Real.sqrt 3 / 2 * Real.cos TETRA_CONST
        ≠ -(Real.sqrt 3 / 2) * Real.cos TETRA_CONST
      intro heq; nlinarith
    · intro b hb
      exact absurd hb (List.not_mem_nil b)

theorem geometries5_facts :
    geometries5.unitVectors.length = 5
      ∧ (∀ v ∈ geometries5.unitVectors, v.mag = 1)
      ∧ geometries5.unitVectors.Pairwise (· ≠ ·) := by
  refine ⟨rfl, ?_, ?_⟩
  · intro v hv
    simp [geometries5] at hv
    rcases hv with h | h | h | h | h <;> subst h
    · exact mag_unit_y
    · exact mag_zero_cos_sin _
    · exact mag_zero_cos_sin _
    · exact mag_unit_x
    · exact mag_neg_unit_x
  · rw [geometries5_unitVectors]
    have h3 := sqrt_three_pos
    refine List.Pairwise.cons ?_ (List.Pairwise.cons ?_
      (List.Pairwise.cons ?_ (List.Pairwise.cons ?_
        (List.Pairwise.cons ?_ List.Pairwise.nil))))
    · intro b hb
      rcases List.mem_cons.mp hb with h | h
      · subst h; exact vne_of_y (by norm_num)
      rcases List.mem_cons.mp h with h' | h'
      · subst h'; exact vne_of_y (by norm_num)
      rcases List.mem_cons.mp h' with h'' | h''
      · subst h''; exact vne_of_x (by norm_num)
      · rw [List.mem_singleton] at h''; subst h''; exact vne_of_x (by norm_num)
    · intro b hb
      rcases List.mem_cons.mp hb with h | h
      · subst h
        refine vne_of_z ?_
        show Real.sqrt 3 / 2 ≠ -(Real.sqrt 3 / 2)
        intro heq; nlinarith
      rcases List.mem_cons.mp h with h' | h'
      · subst h'; exact vne_of_x (by norm_num)
      · rw [List.mem_singleton] at h'; subst h'; exact vne_of_x (by norm_num)
    · intro b hb
      rcases List.mem_cons.mp hb with h | h
      · subst h; exact vne_of_x (by norm_num)
      · rw [List.mem_singleton] at h; subst h; exact vne_of_x (by norm_num)
    · intro b hb
      rw [List.mem_singleton] at hb
      subst hb
      exact vne_of_x (by norm_num)
    · intro b hb
      exact absurd hb (List.not_mem_nil b)

theorem geometries6_facts :
    geometries6.unitVectors.length = 6
      ∧ (∀ v ∈ geometries6.unitVectors, v.mag = 1)
      ∧ geometries6.unitVectors.Pairwise (· ≠ ·) := by
  refine ⟨rfl, ?_, ?_⟩
  · intro v hv
    simp [geometries6] at hv
    rcases hv with h | h | h | h | h | h <;> subst h
    · exact mag_unit_z
    · exact mag_neg_unit_z
    · exact mag_unit_y
    · exact mag_neg_unit_y
    · exact mag_unit_x
    · exact mag_neg_unit_x
  · refine List.Pairwise.cons ?_ (List.Pairwise.cons ?_
      (List.Pairwise.cons ?_ (List.Pairwise.cons ?_
        (List.Pairwise.cons ?_ (List.Pairwise.cons ?_ List.Pairwise.nil)))))
    all_goals intro b hb
    · rcases List.mem_cons.mp hb with h | h
      · subst h; exact vne_of_z (by norm_num)
      rcases List.mem_cons.mp h with h' | h'
      · subst h'; exact vne_of_z (by norm_num)
      rcases List.mem_cons.mp h' with h'' | h''
      · subst h''; exact vne_of_z (by norm_num)
      rcases List.mem_cons.mp h'' with h3 | h3
      · subst h3; exact vne_of_z (by norm_num)
      · rw [List.mem_singleton] at h3; subst h3; exact vne_of_z (by norm_num)
    · rcases List.mem_cons.mp hb with h | h
      · subst h; exact vne_of_z (by norm_num)
      rcases List.mem_cons.mp h with h' | h'
      · subst h'; exact vne_of_z (by norm_num)
      rcases List.mem_cons.mp h' with h'' | h''
      · subst h''; exact vne_of_z (by norm_num)
      · rw [List.mem_singleton] at h''; subst h''; exact vne_of_z (by norm_num)
    · rcases List.mem_cons.mp hb with h | h
      · subst h; exact vne_of_y (by norm_num)
      rcases List.mem_cons.mp h with h' | h'
      · subst h'; exact vne_of_y (by norm_num)
      · rw [List.mem_singleton] at h'; subst h'; exact vne_of_y (by norm_num)
    · rcases List.mem_cons.mp hb with h | h
      · subst h; exact vne_of_y (by norm_num)
      · rw [List.mem_singleton] at h; subst h; exact vne_of_y (by norm_num)
    · rw [List.mem_singleton] at hb
      subst hb
      exact vne_of_x (by norm_num)
    · exact absurd hb (List.not_mem_nil b)

/-- C6: For every dt, `MoleculeShapesModel.step( dt )` invokes the molecule's
`update` with the timestep clamped to at most 0.2 seconds, i.e. it calls
`update( min( dt, 0.2 ) )`. -/
theorem moleculeShapesModel_step_clamps_dt :
    ∀ (M : Type) (update : M → ℝ → M) (molecule : M) (dt : ℝ),
      ∃ dtUsed : ℝ,
        moleculeShapesModelStep update molecule dt = update molecule dtUsed
          ∧ dtUsed = min dt 0.2 ∧ dtUsed ≤ 0.2 ∧ dtUsed ≤ dt := by
  intro M update molecule dt
  exact ⟨min dt 0.2, rfl, rfl, min_le_right _ _, min_le_left _ _⟩

/-- C9: Constructing a `RealAtomLocation` with a position of magnitude 0 sets
its orientation to the zero vector instead of normalizing, and for a position
of positive magnitude the orientation equals the normalized position. -/
theorem realAtomLocation_orientation_zero_guard :
    ∀ (el : ElementTag) (p : Vec3) (lpc : ℕ),
      (p.mag = 0 → (mkRealAtomLocation el p lpc).orientation = (0 : Vec3))
        ∧ (0 < p.mag → (mkRealAtomLocation el p lpc).orientation = p.normalized) := by
  intro el p lpc
  constructor
  · intro h
    have hp : p = 0 := Vec3.mag_eq_zero_iff.mp h
    subst hp
    simp [mkRealAtomLocation, Vec3.mag_zero]
  · intro h
    simp [mkRealAtomLocation, h]

/-- Witness for C9 at the zero vector and at the concrete position (2,0,0). -/
theorem realAtomLocation_orientation_zero_guard_witness :
    (mkRealAtomLocation ElementTag.H 0 0).orientation = (0 : Vec3)
      ∧ (mkRealAtomLocation ElementTag.H ⟨2, 0, 0⟩ 0).orientation
          = Vec3.normalized ⟨2, 0, 0⟩ :=
  ⟨(realAtomLocation_orientation_zero_guard ElementTag.H 0 0).1 Vec3.mag_zero,
    (realAtomLocation_orientation_zero_guard ElementTag.H ⟨2, 0, 0⟩ 0).2
      (by unfold Vec3.mag; rw [show (2:ℝ) ^ 2 + 0 ^ 2 + 0 ^ 2 = 4 by norm_num]
          exact Real.sqrt_pos.mpr (by norm_num))⟩

/-- C10: For every integer outside 0..6, `getConfiguration` is the absent
table entry (`undefined`, embedded as `none`); the embedding is a pure
function, so no state is mutated and no error is thrown.  For every steric
number in 0..6 every call returns the same module-level configuration
constant built once at load. -/
theorem getConfiguration_table_lookup :
    (∀ n : ℤ, n < 0 ∨ 6 < n → getConfiguration n = none)
      ∧ getConfiguration 0 = some geometries0
      ∧ getConfiguration 1 = some geometries1
      ∧ getConfiguration 2 = some geometries2
      ∧ getConfiguration 3 = some geometries3
      ∧ getConfiguration 4 = some geometries4
      ∧ getConfiguration 5 = some geometries5
      ∧ getConfiguration 6 = some geometries6 := by
  refine ⟨?_, ?_, ?_, ?_, ?_, ?_, ?_, ?_⟩
  · intro n h
    have h0 : n ≠ 0 := by omega
    have h1 : n ≠ 1 := by omega
    have h2 : n ≠ 2 := by omega
    have h3 : n ≠ 3 := by omega
    have h4 : n ≠ 4 := by omega
    have h5 : n ≠ 5 := by omega
    have h6 : n ≠ 6 := by omega
    simp [getConfiguration, h0, h1, h2, h3, h4, h5, h6]
  all_goals simp [getConfiguration]

/-- Witness for C10 at the out-of-range steric numbers 7 and -1. -/
theorem getConfiguration_table_lookup_witness :
    getConfiguration 7 = none ∧ getConfiguration (-1) = none :=
  ⟨getConfiguration_table_lookup.1 7 (by norm_num),
    getConfiguration_table_lookup.1 (-1) (by norm_num)⟩

/-- C2: For every steric number n in 0..6, `getConfiguration( n )` returns a
configuration with exactly n unit vectors, each of magnitude 1, pairwise
distinct whenever n is at least 2. -/
theorem getConfiguration_returns_n_distinct_unit_vectors (n : ℕ) (h : n ≤ 6) :
    ∃ c, getConfiguration (n : ℤ) = some c
      ∧ c.unitVectors.length = n
      ∧ (∀ v ∈ c.unitVectors, v.mag = 1)
      ∧ (2 ≤ n → c.unitVectors.Pairwise (· ≠ ·)) := by
  interval_cases n
  · exact ⟨geometries0, by simp [getConfiguration], geometries0_facts.1,
      geometries0_facts.2, fun h2 => absurd h2 (by norm_num)⟩
  · exact ⟨geometries1, by simp [getConfiguration], geometries1_facts.1,
      geometries1_facts.2, fun h2 => absurd h2 (by norm_num)⟩
  · exact ⟨geometries2, by simp [getConfiguration], geometries2_facts.1,
      geometries2_facts.2.1, fun _ => geometries2_facts.2.2⟩
  · exact ⟨geometries3, by simp [getConfiguration], geometries3_facts.1,
      geometries3_facts.2.1, fun _ => geometries3_facts.2.2⟩
  · exact ⟨geometries4, by simp [getConfiguration], geometries4_facts.1,
      geometries4_facts.2.1, fun _ => geometries4_facts.2.2⟩
  · exact ⟨geometries5, by simp [getConfiguration], geometries5_facts.1,
      geometries5_facts.2.1, fun _ => geometries5_facts.2.2⟩
  · exact ⟨geometries6, by simp [getConfiguration], geometries6_facts.1,
      geometries6_facts.2.1, fun _ => geometries6_facts.2.2⟩

/-- Witness for C2 at steric number 5. -/
theorem getConfiguration_returns_n_distinct_unit_vectors_witness :
    (5 : ℕ) ≤ 6
      ∧ ∃ c, getConfiguration ((5 : ℕ) : ℤ) = some c
          ∧ c.unitVectors.length = 5
          ∧ (∀ v ∈ c.unitVectors, v.mag = 1)
          ∧ (2 ≤ 5 → c.unitVectors.Pairwise (· ≠ ·)) :=
  ⟨by norm_num, getConfiguration_returns_n_distinct_unit_vectors 5 (by norm_num)⟩

/-- C7: The steric-number-5 (trigonal bipyramidal) table entry lists the
three equatorial unit vectors first — all in the y-z plane, pairwise
separated by 120 degrees — followed by the axial vectors (1,0,0) and
(-1,0,0), so the slots filled first (intended for lone pairs) are the
equatorial ones. -/
theorem geometries5_equatorial_first :
    ∃ e0 e1 e2 : Vec3,
      getConfiguration 5 = some geometries5
        ∧ geometries5.name = GeometryName.trigonalBipyramidal
        ∧ geometries5.unitVectors = [e0, e1, e2, ⟨1, 0, 0⟩, ⟨-1, 0, 0⟩]
        ∧ (e0.x = 0 ∧ e1.x = 0 ∧ e2.x = 0)
        ∧ (e0.mag = 1 ∧ e1.mag = 1 ∧ e2.mag = 1)
        ∧ (e0.dot e1 = Real.cos (Real.pi * 2 / 3)
            ∧ e0.dot e2 = Real.cos (Real.pi * 2 / 3)
            ∧ e1.dot e2 = Real.cos (Real.pi * 2 / 3)) := by
  refine ⟨⟨0, 1, 0⟩, ⟨0, -(1 / 2), Real.sqrt 3 / 2⟩,
    ⟨0, -(1 / 2), -(Real.sqrt 3 / 2)⟩, by simp [getConfiguration], rfl,
    geometries5_unitVectors, ⟨rfl, rfl, rfl⟩, ?_, ?_⟩
  · have h1 : Vec3.mag ⟨0, -(1 / 2), Real.sqrt 3 / 2⟩ = 1 := by
      have := mag_zero_cos_sin (Real.pi * 2 / 3)
      rwa [cos_two_thirds_pi, sin_two_thirds_pi] at this
    have h2 : Vec3.mag ⟨0, -(1 / 2), -(Real.sqrt 3 / 2)⟩ = 1 := by
      have := mag_zero_cos_sin (Real.pi * 4 / 3)
      rwa [cos_four_thirds_pi, sin_four_thirds_pi] at this
    exact ⟨mag_unit_y, h1, h2⟩
  · have hsq : Real.sqrt 3 * Real.sqrt 3 = 3 :=
      Real.mul_self_sqrt (by norm_num)
    refine ⟨?_, ?_, ?_⟩
    · rw [cos_two_thirds_pi]; unfold Vec3.dot; norm_num
    · rw [cos_two_thirds_pi]; unfold Vec3.dot; norm_num
    · rw [cos_two_thirds_pi]; unfold Vec3.dot; nlinarith

theorem waterRadialAngle_pos : 0 < waterRadialAngle := by
  unfold waterRadialAngle
  positivity

theorem waterRadialAngle_lt_pi : waterRadialAngle < Real.pi := by
  unfold waterRadialAngle
  nlinarith [Real.pi_pos]

theorem sin_waterRadialAngle_pos : 0 < Real.sin waterRadialAngle :=
  Real.sin_pos_of_pos_of_lt_pi waterRadialAngle_pos waterRadialAngle_lt_pi

theorem waterLiteral1_mag : waterLiteral1.mag = 0.957 := by
  unfold waterLiteral1 waterRadialBondLength
  rw [Vec3.mag_smul]
  have h : Vec3.mag ⟨Real.sin waterRadialAngle, -Real.cos waterRadialAngle, 0⟩ = 1 := by
    unfold Vec3.mag
    rw [show Real.sin waterRadialAngle ^ 2 + (-Real.cos waterRadialAngle) ^ 2
          + (0:ℝ) ^ 2
        = Real.sin waterRadialAngle ^ 2 + Real.cos waterRadialAngle ^ 2 by ring,
      Real.sin_sq_add_cos_sq, Real.sqrt_one]
  rw [h]
  norm_num

theorem waterLiteral2_mag : waterLiteral2.mag = 0.957 := by
  unfold waterLiteral2 waterRadialBondLength
  rw [Vec3.mag_smul]
  have h : Vec3.mag ⟨-Real.sin waterRadialAngle, -Real.cos waterRadialAngle, 0⟩ = 1 := by
    unfold Vec3.mag
    rw [show (-Real.sin waterRadialAngle) ^ 2 + (-Real.cos waterRadialAngle) ^ 2
          + (0:ℝ) ^ 2
        = Real.sin waterRadialAngle ^ 2 + Real.cos waterRadialAngle ^ 2 by ring,
      Real.sin_sq_add_cos_sq, Real.sqrt_one]
  rw [h]
  norm_num

theorem waterAtomH1_orientation :
    waterAtomH1.orientation = (1 / (0.957 : ℝ)) • waterLiteral1 := by
  unfold waterAtomH1
  rw [show (mkRealAtomLocation ElementTag.H waterLiteral1 0).orientation
      = waterLiteral1.normalized from
        (realAtomLocation_orientation_zero_guard ElementTag.H waterLiteral1 0).2
          (by rw [waterLiteral1_mag]; norm_num)]
  unfold Vec3.normalized
  rw [waterLiteral1_mag]

theorem waterAtomH2_orientation :
    waterAtomH2.orientation = (1 / (0.957 : ℝ)) • waterLiteral2 := by
  unfold waterAtomH2
  rw [show (mkRealAtomLocation ElementTag.H waterLiteral2 0).orientation
      = waterLiteral2.normalized from
        (realAtomLocation_orientation_zero_guard ElementTag.H waterLiteral2 0).2
          (by rw [waterLiteral2_mag]; norm_num)]
  unfold Vec3.normalized
  rw [waterLiteral2_mag]

theorem waterAtomH1Scaled_position :
    waterAtomH1Scaled.position = (5.5 : ℝ) • waterLiteral1 := by
  unfold waterAtomH1Scaled addRadialAtomRescale
  show waterBondLengthOverride • waterAtomH1.position.normalized = _
  have hpos : waterAtomH1.position = waterLiteral1 := rfl
  rw [hpos]
  unfold Vec3.normalized waterBondLengthOverride
  rw [waterLiteral1_mag, Vec3.smul_smul]
  norm_num

theorem waterAtomH2Scaled_position :
    waterAtomH2Scaled.position = (5.5 : ℝ) • waterLiteral2 := by
  unfold waterAtomH2Scaled addRadialAtomRescale
  show waterBondLengthOverride • waterAtomH2.position.normalized = _
  have hpos : waterAtomH2.position = waterLiteral2 := rfl
  rw [hpos]
  unfold Vec3.normalized waterBondLengthOverride
  rw [waterLiteral2_mag, Vec3.smul_smul]
  norm_num

/-- C3 (amended): constructing the WATER molecule yields bonded-atom positions
equal to the literal `addRadialAtom` coordinate vectors scaled by the 5.5
model-unit upscale factor (their magnitude becomes the shape's
`bondLengthOverride` of 0.957 * 5.5); directions are preserved but the
literal vectors themselves are not. -/
theorem water_bonded_positions_upscaled :
    waterBondedPosition1 = (5.5 : ℝ) • waterLiteral1
      ∧ waterBondedPosition2 = (5.5 : ℝ) • waterLiteral2 := by
  constructor
  · unfold waterBondedPosition1 realMoleculeBondedPosition
    have hor : waterAtomH1Scaled.orientation = waterAtomH1.orientation := rfl
    rw [hor, waterAtomH1Scaled_position, waterAtomH1_orientation, Vec3.mag_smul,
      waterLiteral1_mag, Vec3.smul_smul]
    congr 1
    rw [abs_of_pos] <;> norm_num
  · unfold waterBondedPosition2 realMoleculeBondedPosition
    have hor : waterAtomH2Scaled.orientation = waterAtomH2.orientation := rfl
    rw [hor, waterAtomH2Scaled_position, waterAtomH2_orientation, Vec3.mag_smul,
      waterLiteral2_mag, Vec3.smul_smul]
    congr 1
    rw [abs_of_pos] <;> norm_num

/-- C3 (counterexample): the first bonded hydrogen of the constructed WATER
molecule does not sit at the literal coordinate vector that was supplied to
`addRadialAtom`; the claim as stated is false. -/
theorem water_bonded_position1_ne_literal :
    waterBondedPosition1 ≠ waterLiteral1 := by
  rw [water_bonded_positions_upscaled.1]
  refine vne_of_x ?_
  unfold waterLiteral1 waterRadialBondLength
  have hs := sin_waterRadialAngle_pos
  simp only [Vec3.smul_x]
  intro h
  nlinarith

/- Stage lemmas about the per-group operations. -/

theorem PairGroup.stepForward_id (dt : ℝ) (g : PairGroup) :
    (g.stepForward dt).id = g.id := by
  unfold PairGroup.stepForward; split <;> rfl

theorem PairGroup.stepForward_userControlled (dt : ℝ) (g : PairGroup) :
    (g.stepForward dt).userControlled = g.userControlled := by
  unfold PairGroup.stepForward; split <;> rfl

theorem PairGroup.stepForward_velocity (dt : ℝ) (g : PairGroup) :
    (g.stepForward dt).velocity = g.velocity := by
  unfold PairGroup.stepForward; split <;> rfl

theorem PairGroup.stepForward_of_controlled (dt : ℝ) {g : PairGroup}
    (h : g.userControlled = true) : g.stepForward dt = g := by
  unfold PairGroup.stepForward
  rw [if_pos (by simp [h])]

theorem PairGroup.fields_ext {a b : PairGroup} (h1 : a.id = b.id)
    (h2 : a.position = b.position) (h3 : a.velocity = b.velocity)
    (h4 : a.isLonePair = b.isLonePair) (h5 : a.userControlled = b.userControlled)
    (h6 : a.isCentralAtom = b.isCentralAtom) : a = b := by
  cases a; cases b; simp_all

theorem PairGroup.stepForward_of_velocity_zero (dt : ℝ) {g : PairGroup}
    (h : g.velocity = 0) : g.stepForward dt = g := by
  unfold PairGroup.stepForward
  split
  · rfl
  · refine PairGroup.fields_ext rfl ?_ rfl rfl rfl rfl
    show g.position + dt • g.velocity = g.position
    rw [h, Vec3.smul_zero_vec, Vec3.add_zero_vec]

theorem nudgeGroup_id (f : ℝ) (c t : Vec3) (g : PairGroup) :
    (nudgeGroup f c t g).id = g.id := by
  unfold nudgeGroup; split <;> rfl

theorem nudgeGroup_userControlled (f : ℝ) (c t : Vec3) (g : PairGroup) :
    (nudgeGroup f c t g).userControlled = g.userControlled := by
  unfold nudgeGroup; split <;> rfl

theorem nudgeGroup_velocity (f : ℝ) (c t : Vec3) (g : PairGroup) :
    (nudgeGroup f c t g).velocity = g.velocity := by
  unfold nudgeGroup; split <;> rfl

theorem nudgeGroup_of_controlled (f : ℝ) (c t : Vec3) {g : PairGroup}
    (h : g.userControlled = true) : nudgeGroup f c t g = g := by
  unfold nudgeGroup
  rw [if_pos (by simp [h])]

theorem angleAdjustGroup_id (f : ℝ) (c t : Vec3) (g : PairGroup) :
    (angleAdjustGroup f c t g).id = g.id := by
  unfold angleAdjustGroup; split <;> rfl

theorem angleAdjustGroup_userControlled (f : ℝ) (c t : Vec3) (g : PairGroup) :
    (angleAdjustGroup f c t g).userControlled = g.userControlled := by
  unfold angleAdjustGroup; split <;> rfl

theorem angleAdjustGroup_velocity (f : ℝ) (c t : Vec3) (g : PairGroup) :
    (angleAdjustGroup f c t g).velocity = g.velocity := by
  unfold angleAdjustGroup; split <;> rfl

theorem angleAdjustGroup_of_controlled (f : ℝ) (c t : Vec3) {g : PairGroup}
    (h : g.userControlled = true) : angleAdjustGroup f c t g = g := by
  unfold angleAdjustGroup
  rw [if_pos (by simp [h])]

theorem Vec3.add_sub_cancel_left (a b : Vec3) : a + b - a = b := by
  apply Vec3.ext_iff.mpr
  refine ⟨?_, ?_, ?_⟩ <;> simp

/-- The angular correction keeps a neighbor's distance from the reference
center. -/
theorem angleAdjustGroup_dist (f : ℝ) (c t : Vec3) (g : PairGroup) :
    ((angleAdjustGroup f c t g).position - c).mag = (g.position - c).mag := by
  unfold angleAdjustGroup
  split
  · rfl
  · simp only
    rw [Vec3.add_sub_cancel_left, Vec3.mag_smul,
      abs_of_nonneg (Vec3.mag_nonneg _)]
    by_cases hb : 0 < ((1 - f) • (if 0 < (g.position - c).mag
        then (g.position - c).normalized else 0) + f • t).mag
    · rw [if_pos hb, Vec3.mag_normalized (Vec3.mag_pos_iff.mp hb), mul_one]
    · rw [if_neg hb]
      by_cases hr : 0 < (g.position - c).mag
      · rw [if_pos hr, Vec3.mag_normalized (Vec3.mag_pos_iff.mp hr), mul_one]
      · rw [if_neg hr, Vec3.mag_zero, mul_zero]
        have : (g.position - c).mag = 0 :=
          le_antisymm (not_lt.mp hr) (Vec3.mag_nonneg _)
        rw [this]

theorem PairGroup.repulseFrom_position (g o : PairGroup) (dt ratio : ℝ) :
    (g.repulseFrom o dt ratio).position = g.position := by
  unfold PairGroup.repulseFrom; split <;> rfl

theorem PairGroup.repulseFrom_id (g o : PairGroup) (dt ratio : ℝ) :
    (g.repulseFrom o dt ratio).id = g.id := by
  unfold PairGroup.repulseFrom; split <;> rfl

theorem PairGroup.repulseFrom_userControlled (g o : PairGroup) (dt ratio : ℝ) :
    (g.repulseFrom o dt ratio).userControlled = g.userControlled := by
  unfold PairGroup.repulseFrom; split <;> rfl

theorem PairGroup.repulseFrom_of_controlled {g : PairGroup} (o : PairGroup)
    (dt ratio : ℝ) (h : g.userControlled = true) : g.repulseFrom o dt ratio = g := by
  unfold PairGroup.repulseFrom
  rw [if_pos (by simp [h])]

theorem foldl_repulse_position (dt ratio : ℝ) (cid gid : ℕ)
    (os : List PairGroup) :
    ∀ acc : PairGroup,
      (os.foldl
          (fun acc o =>
            if o.id ≠ gid ∧ gid ≠ cid then acc.repulseFrom o dt ratio else acc)
          acc).position = acc.position := by
  induction os with
  | nil => intro acc; rfl
  | cons o os ih =>
    intro acc
    simp only [List.foldl_cons]
    rw [ih]
    split
    · exact PairGroup.repulseFrom_position _ _ _ _
    · rfl

theorem foldl_repulse_id (dt ratio : ℝ) (cid gid : ℕ)
    (os : List PairGroup) :
    ∀ acc : PairGroup,
      (os.foldl
          (fun acc o =>
            if o.id ≠ gid ∧ gid ≠ cid then acc.repulseFrom o dt ratio else acc)
          acc).id = acc.id := by
  induction os with
  | nil => intro acc; rfl
  | cons o os ih =>
    intro acc
    simp only [List.foldl_cons]
    rw [ih]
    split
    · exact PairGroup.repulseFrom_id _ _ _ _
    · rfl

theorem foldl_repulse_userControlled (dt ratio : ℝ) (cid gid : ℕ)
    (os : List PairGroup) :
    ∀ acc : PairGroup,
      (os.foldl
          (fun acc o =>
            if o.id ≠ gid ∧ gid ≠ cid then acc.repulseFrom o dt ratio else acc)
          acc).userControlled = acc.userControlled := by
  induction os with
  | nil => intro acc; rfl
  | cons o os ih =>
    intro acc
    simp only [List.foldl_cons]
    rw [ih]
    split
    · exact PairGroup.repulseFrom_userControlled _ _ _ _
    · rfl

theorem repulseFromAll_position (dt ratio : ℝ) (cid : ℕ)
    (all : List PairGroup) (g : PairGroup) :
    (repulseFromAll dt ratio cid all g).position = g.position :=
  foldl_repulse_position dt ratio cid g.id all g

theorem repulseFromAll_id (dt ratio : ℝ) (cid : ℕ)
    (all : List PairGroup) (g : PairGroup) :
    (repulseFromAll dt ratio cid all g).id = g.id :=
  foldl_repulse_id dt ratio cid g.id all g

theorem repulseFromAll_userControlled (dt ratio : ℝ) (cid : ℕ)
    (all : List PairGroup) (g : PairGroup) :
    (repulseFromAll dt ratio cid all g).userControlled = g.userControlled :=
  foldl_repulse_userControlled dt ratio cid g.id all g

/- List-level characterizations of the solver's list transformations. -/

theorem nudgeGroups_get? (f : ℝ) (c : Vec3) :
    ∀ (ts : List Vec3) (gs : List PairGroup) (i : ℕ),
      (nudgeGroups f c ts gs).get? i
        = match gs.get? i, ts.get? i with
          | some g, some t => some (nudgeGroup f c t g)
          | some g, none => some g
          | none, _ => none := by
  intro ts gs
  induction gs generalizing ts with
  | nil => intro i; cases ts <;> simp [nudgeGroups]
  | cons g gs ih =>
    intro i
    cases ts with
    | nil =>
      cases i with
      | zero => simp [nudgeGroups]
      | succ j => simpa [nudgeGroups] using ih [] j
    | cons t ts =>
      cases i with
      | zero => simp [nudgeGroups]
      | succ j => simpa [nudgeGroups] using ih ts j

theorem angleAdjustGroups_get? (f : ℝ) (c : Vec3) :
    ∀ (ts : List Vec3) (gs : List PairGroup) (i : ℕ),
      (angleAdjustGroups f c ts gs).get? i
        = match gs.get? i, ts.get? i with
          | some g, some t => some (angleAdjustGroup f c t g)
          | some g, none => some g
          | none, _ => none := by
  intro ts gs
  induction gs generalizing ts with
  | nil => intro i; cases ts <;> simp [angleAdjustGroups]
  | cons g gs ih =>
    intro i
    cases ts with
    | nil =>
      cases i with
      | zero => simp [angleAdjustGroups]
      | succ j => simpa [angleAdjustGroups] using ih [] j
    | cons t ts =>
      cases i with
      | zero => simp [angleAdjustGroups]
      | succ j => simpa [angleAdjustGroups] using ih ts j

theorem setGroups_get? :
    ∀ (es : List RadialEntry) (gs : List PairGroup) (i : ℕ),
      (setGroups es gs).get? i
        = match es.get? i, gs.get? i with
          | some e, some g => some { e with group := g }
          | some e, none => some e
          | none, _ => none := by
  intro es
  induction es with
  | nil => intro gs i; cases gs <;> simp [setGroups]
  | cons e es ih =>
    intro gs i
    cases gs with
    | nil =>
      cases i with
      | zero => simp [setGroups]
      | succ j => simpa [setGroups] using ih [] j
    | cons g gs =>
      cases i with
      | zero => simp [setGroups]
      | succ j => simpa [setGroups] using ih gs j

theorem nudgeGroups_map_id (f : ℝ) (c : Vec3) :
    ∀ (ts : List Vec3) (gs : List PairGroup),
      (nudgeGroups f c ts gs).map (·.id) = gs.map (·.id) := by
  intro ts gs
  induction gs generalizing ts with
  | nil => cases ts <;> simp [nudgeGroups]
  | cons g gs ih =>
    cases ts with
    | nil => simp [nudgeGroups, ih]
    | cons t ts => simp [nudgeGroups, ih, nudgeGroup_id]

theorem angleAdjustGroups_map_id (f : ℝ) (c : Vec3) :
    ∀ (ts : List Vec3) (gs : List PairGroup),
      (angleAdjustGroups f c ts gs).map (·.id) = gs.map (·.id) := by
  intro ts gs
  induction gs generalizing ts with
  | nil => cases ts <;> simp [angleAdjustGroups]
  | cons g gs ih =>
    cases ts with
    | nil => simp [angleAdjustGroups, ih]
    | cons t ts => simp [angleAdjustGroups, ih, angleAdjustGroup_id]

theorem nudgeGroups_length (f : ℝ) (c : Vec3) (ts : List Vec3)
    (gs : List PairGroup) : (nudgeGroups f c ts gs).length = gs.length := by
  have := congrArg List.length (nudgeGroups_map_id f c ts gs)
  simpa using this

theorem angleAdjustGroups_length (f : ℝ) (c : Vec3) (ts : List Vec3)
    (gs : List PairGroup) : (angleAdjustGroups f c ts gs).length = gs.length := by
  have := congrArg List.length (angleAdjustGroups_map_id f c ts gs)
  simpa using this

theorem moleculeBaseUpdate_centralAtom (m : MoleculeState) (dt : ℝ) :
    (moleculeBaseUpdate m dt).centralAtom = m.centralAtom := rfl

theorem moleculeBaseUpdate_radial_get? (m : MoleculeState) (dt : ℝ) (i : ℕ) :
    (moleculeBaseUpdate m dt).radial.get? i
      = (m.radial.get? i).map fun e =>
          { group := e.group.stepForward dt
            terminals := e.terminals.map (PairGroup.stepForward dt) } := by
  unfold moleculeBaseUpdate
  simp [List.get?_eq_getElem?]

theorem moleculeBaseUpdate_radialIds (m : MoleculeState) (dt : ℝ) :
    radialIds (moleculeBaseUpdate m dt) = radialIds m := by
  unfold radialIds moleculeBaseUpdate
  simp [List.map_map, Function.comp, PairGroup.stepForward_id]

theorem moleculeBaseUpdate_radial_length (m : MoleculeState) (dt : ℝ) :
    (moleculeBaseUpdate m dt).radial.length = m.radial.length := by
  unfold moleculeBaseUpdate
  simp

/- Correspondence between the emitted repulsion loop and the claim-side list
of ordered distinct pairs. -/

theorem repulseTrace_inner (ratio : ℝ) (cid gid : ℕ) (hgid : gid ≠ cid) :
    ∀ os : List PairGroup,
      (os.flatMap fun o =>
          if o.id ≠ gid ∧ gid ≠ cid
          then [UpdateCall.repulse gid o.id ratio] else [])
        = ((os.map (·.id)).flatMap fun b =>
            if gid ≠ b then [(gid, b)] else []).map fun p =>
              UpdateCall.repulse p.1 p.2 ratio := by
  intro os
  induction os with
  | nil => simp
  | cons o os ih =>
    simp only [List.flatMap_cons, List.map_cons, List.map_append]
    rw [ih]
    congr 1
    by_cases h : o.id = gid
    · simp [h, hgid]
    · simp [h, hgid, Ne.symm h]

theorem repulseTrace_outer (ratio : ℝ) (cid : ℕ) (all : List PairGroup) :
    ∀ os : List PairGroup, (∀ g ∈ os, g.id ≠ cid) →
      (os.flatMap fun g =>
          all.flatMap fun o =>
            if o.id ≠ g.id ∧ g.id ≠ cid
            then [UpdateCall.repulse g.id o.id ratio] else [])
        = ((os.map (·.id)).flatMap fun a =>
            (all.map (·.id)).flatMap fun b =>
              if a ≠ b then [(a, b)] else []).map fun p =>
                UpdateCall.repulse p.1 p.2 ratio := by
  intro os
  induction os with
  | nil => intro _; simp
  | cons g os ih =>
    intro hos
    simp only [List.flatMap_cons, List.map_cons, List.map_append]
    rw [ih fun g' hg' => hos g' (List.mem_cons_of_mem _ hg')]
    congr 1
    exact repulseTrace_inner ratio cid g.id (hos g (List.mem_cons_self _ _)) all

theorem repulseTrace_eq_pairs (ratio : ℝ) (cid : ℕ) (gs : List PairGroup)
    (hc : cid ∉ gs.map (·.id)) :
    repulseTrace ratio cid gs
      = (orderedDistinctPairs (gs.map (·.id))).map fun p =>
          UpdateCall.repulse p.1 p.2 ratio := by
  unfold repulseTrace orderedDistinctPairs
  refine repulseTrace_outer ratio cid gs gs fun g hg heq => ?_
  exact hc (heq ▸ List.mem_map_of_mem (·.id) hg)

theorem applyAttraction_fst_map_id (attr : AttractorFit) (dt : ℝ) (c : Vec3)
    (gs : List PairGroup) :
    ((applyAttraction attr dt c gs).1).map (·.id) = gs.map (·.id) := by
  unfold applyAttraction
  exact nudgeGroups_map_id _ _ _ _

/-- C1: On a `VSEPRMolecule.update( dt )` tick whose central atom has more
than one neighbor, the update first computes `error = applyAttraction( dt )`
on the central atom's local shape, then derives
`trueLengthsRatioOverride = max( 0, min( 1, log( error + 1 ) - 0.5 ) )`, and
then calls `repulseFrom( otherGroup, dt, trueLengthsRatioOverride )` for
every ordered pair of distinct radial groups (groups carry unique ids and
the central atom is not a radial group). -/
theorem vseprUpdate_central_attract_then_pairwise_repulse
    (attr : AttractorFit) (m : MoleculeState) (dt : ℝ)
    (hmany : 1 < m.radial.length)
    (_hnodup : (radialIds m).Nodup)
    (hcid : m.centralAtom.id ∉ radialIds m) :
    (UpdateCall.attract m.centralAtom.id
        :: (orderedDistinctPairs (radialIds m)).map fun p =>
            UpdateCall.repulse p.1 p.2
              (trueLengthsRatioOverrideOf
                (applyAttractionError attr dt m.centralAtom.position
                  ((moleculeBaseUpdate m dt).radial.map (·.group)))))
      <+: (vseprUpdate attr m dt).2 := by
  have h1 : 1 < (moleculeBaseUpdate m dt).radial.length := by
    rw [moleculeBaseUpdate_radial_length]; exact hmany
  have hgids : ((moleculeBaseUpdate m dt).radial.map (·.group)).map (·.id)
      = radialIds m := by
    rw [← moleculeBaseUpdate_radialIds m dt]
    unfold radialIds
    simp [List.map_map, Function.comp]
  have hids : ((applyAttraction attr dt m.centralAtom.position
      ((moleculeBaseUpdate m dt).radial.map (·.group))).1).map (·.id)
      = radialIds m := by
    rw [applyAttraction_fst_map_id]
    exact hgids
  have hcid2 : m.centralAtom.id
      ∉ ((applyAttraction attr dt m.centralAtom.position
          ((moleculeBaseUpdate m dt).radial.map (·.group))).1).map (·.id) := by
    rw [hids]; exact hcid
  have herr : applyAttractionError attr dt m.centralAtom.position
      ((moleculeBaseUpdate m dt).radial.map (·.group))
      = (applyAttraction attr dt m.centralAtom.position
          ((moleculeBaseUpdate m dt).radial.map (·.group))).2 := rfl
  simp only [vseprUpdate, moleculeBaseUpdate_centralAtom]
  rw [if_pos h1]
  simp only [List.cons_append]
  rw [List.cons_prefix_cons]
  refine ⟨rfl, ?_⟩
  rw [repulseTrace_eq_pairs _ _ _ hcid2, hids, herr]
  exact List.prefix_append _ _

/-- Witness for C1 at the sample molecule with the sample attractor fit and
dt = 1. -/
theorem vseprUpdate_central_attract_then_pairwise_repulse_witness :
    (1 < sampleMolecule.radial.length
        ∧ (radialIds sampleMolecule).Nodup
        ∧ sampleMolecule.centralAtom.id ∉ radialIds sampleMolecule)
      ∧ ((UpdateCall.attract sampleMolecule.centralAtom.id
            :: (orderedDistinctPairs (radialIds sampleMolecule)).map fun p =>
                UpdateCall.repulse p.1 p.2
                  (trueLengthsRatioOverrideOf
                    (applyAttractionError attractorFitId 1
                      sampleMolecule.centralAtom.position
                      ((moleculeBaseUpdate sampleMolecule 1).radial.map (·.group)))))
          <+: (vseprUpdate attractorFitId sampleMolecule 1).2) :=
  ⟨⟨by simp [sampleMolecule],
    by simp [radialIds, sampleMolecule, sampleGroupA, sampleGroupB],
    by simp [radialIds, sampleMolecule, sampleCentral, sampleGroupA, sampleGroupB]⟩,
    vseprUpdate_central_attract_then_pairwise_repulse attractorFitId
      sampleMolecule 1 (by simp [sampleMolecule])
      (by simp [radialIds, sampleMolecule, sampleGroupA, sampleGroupB])
      (by simp [radialIds, sampleMolecule, sampleCentral, sampleGroupA, sampleGroupB])⟩

theorem get?_map' {α β : Type} (f : α → β) (l : List α) (i : ℕ) :
    (l.map f).get? i = (l.get? i).map f := by
  simp [List.get?_eq_getElem?]

theorem vseprUpdate_centralAtom (attr : AttractorFit) (m : MoleculeState)
    (dt : ℝ) : (vseprUpdate attr m dt).1.centralAtom = m.centralAtom := by
  simp only [vseprUpdate]
  split <;> rfl

theorem realMoleculeUpdate_centralAtom (attr : AttractorFit)
    (m : MoleculeState) (dt : ℝ) :
    (realMoleculeUpdate attr m dt).1.centralAtom = m.centralAtom := by
  simp only [realMoleculeUpdate]
  split <;> rfl

theorem vseprUpdate_fst_radial (attr : AttractorFit) (m : MoleculeState)
    (dt : ℝ) :
    (vseprUpdate attr m dt).1.radial
      = (if 1 < (moleculeBaseUpdate m dt).radial.length
          then
            setGroups (moleculeBaseUpdate m dt).radial
              (((applyAttraction attr dt
                  (moleculeBaseUpdate m dt).centralAtom.position
                  ((moleculeBaseUpdate m dt).radial.map (·.group))).1).map
                (repulseFromAll dt
                  (trueLengthsRatioOverrideOf
                    (applyAttraction attr dt
                      (moleculeBaseUpdate m dt).centralAtom.position
                      ((moleculeBaseUpdate m dt).radial.map (·.group))).2)
                  (moleculeBaseUpdate m dt).centralAtom.id
                  ((applyAttraction attr dt
                      (moleculeBaseUpdate m dt).centralAtom.position
                      ((moleculeBaseUpdate m dt).radial.map (·.group))).1)))
          else (moleculeBaseUpdate m dt).radial).map
        fun e =>
          if 1 < 1 + e.terminals.length
          then
            { e with
              terminals :=
                applyAngleAttractionRepulsion attr dt e.group.position e.terminals }
          else e := by
  simp only [vseprUpdate, List.map_map]
  split <;>
    exact List.map_congr_left fun e _ => by
      by_cases hc : 1 < 1 + e.terminals.length <;> simp [hc, Function.comp]

theorem realMoleculeUpdate_fst_radial (attr : AttractorFit) (m : MoleculeState)
    (dt : ℝ) :
    (realMoleculeUpdate attr m dt).1.radial
      = (if 1 < (moleculeBaseUpdate m dt).radial.length
          then
            setGroups (moleculeBaseUpdate m dt).radial
              (applyAngleAttractionRepulsion attr dt
                (moleculeBaseUpdate m dt).centralAtom.position
                ((moleculeBaseUpdate m dt).radial.map (·.group)))
          else (moleculeBaseUpdate m dt).radial).map
        fun e =>
          if 1 < 1 + e.terminals.length
          then
            { e with
              terminals :=
                applyAngleAttractionRepulsion attr dt e.group.position e.terminals }
          else e := by
  simp only [realMoleculeUpdate, List.map_map]
  split <;>
    exact List.map_congr_left fun e _ => by
      by_cases hc : 1 < 1 + e.terminals.length <;> simp [hc, Function.comp]

theorem applyAttraction_fst (attr : AttractorFit) (dt : ℝ) (c : Vec3)
    (gs : List PairGroup) :
    (applyAttraction attr dt c gs).1
      = nudgeGroups (nudgeFraction dt) c
          (attr (gs.map fun g => orientationFrom c g.position)).1 gs := rfl

theorem applyAngleAttractionRepulsion_def (attr : AttractorFit) (dt : ℝ)
    (c : Vec3) (gs : List PairGroup) :
    applyAngleAttractionRepulsion attr dt c gs
      = angleAdjustGroups (nudgeFraction dt) c
          (attr (gs.map fun g => orientationFrom c g.position)).1 gs := rfl

theorem nudgeGroups_get?_spec (f : ℝ) (c : Vec3) (ts : List Vec3)
    (gs : List PairGroup) (i : ℕ) (g0 : PairGroup)
    (hg : gs.get? i = some g0) :
    ∃ g1, (nudgeGroups f c ts gs).get? i = some g1
      ∧ g1.id = g0.id
      ∧ g1.userControlled = g0.userControlled
      ∧ g1.velocity = g0.velocity
      ∧ (g0.userControlled = true → g1 = g0) := by
  rw [nudgeGroups_get?, hg]
  cases hts : ts.get? i with
  | none => exact ⟨g0, rfl, rfl, rfl, rfl, fun _ => rfl⟩
  | some t =>
    exact ⟨nudgeGroup f c t g0, rfl, nudgeGroup_id f c t g0,
      nudgeGroup_userControlled f c t g0, nudgeGroup_velocity f c t g0,
      fun h => nudgeGroup_of_controlled f c t h⟩

theorem angleAdjustGroups_get?_spec (f : ℝ) (c : Vec3) (ts : List Vec3)
    (gs : List PairGroup) (i : ℕ) (g0 : PairGroup)
    (hg : gs.get? i = some g0) :
    ∃ g1, (angleAdjustGroups f c ts gs).get? i = some g1
      ∧ g1.id = g0.id
      ∧ g1.userControlled = g0.userControlled
      ∧ g1.velocity = g0.velocity
      ∧ (g0.userControlled = true → g1 = g0)
      ∧ (g1.position - c).mag = (g0.position - c).mag := by
  rw [angleAdjustGroups_get?, hg]
  cases hts : ts.get? i with
  | none => exact ⟨g0, rfl, rfl, rfl, rfl, fun _ => rfl, rfl⟩
  | some t =>
    exact ⟨angleAdjustGroup f c t g0, rfl, angleAdjustGroup_id f c t g0,
      angleAdjustGroup_userControlled f c t g0, angleAdjustGroup_velocity f c t g0,
      fun h => angleAdjustGroup_of_controlled f c t h,
      angleAdjustGroup_dist f c t g0⟩

theorem angleStage_spec (attr : AttractorFit) (dt : ℝ) (e' : RadialEntry) :
    ∃ e2,
      (if 1 < 1 + e'.terminals.length
        then
          { e' with
            terminals :=
              applyAngleAttractionRepulsion attr dt e'.group.position e'.terminals }
        else e') = e2
      ∧ e2.group = e'.group
      ∧ ∀ j t', e'.terminals.get? j = some t' →
          ∃ t2, e2.terminals.get? j = some t2
            ∧ t2.userControlled = t'.userControlled
            ∧ t2.velocity = t'.velocity
            ∧ (t'.userControlled = true → t2 = t') := by
  by_cases hc : 1 < 1 + e'.terminals.length
  · rw [if_pos hc]
    refine ⟨_, rfl, rfl, ?_⟩
    intro j t' ht'
    rw [applyAngleAttractionRepulsion_def]
    obtain ⟨t2, h2, _, huc, hvel, hctl, _⟩ :=
      angleAdjustGroups_get?_spec (nudgeFraction dt) e'.group.position
        (attr (e'.terminals.map fun g => orientationFrom e'.group.position g.position)).1
        e'.terminals j t' ht'
    exact ⟨t2, h2, huc, hvel, hctl⟩
  · rw [if_neg hc]
    exact ⟨e', rfl, rfl, fun j t' ht' => ⟨t', ht', rfl, rfl, fun _ => rfl⟩⟩

theorem vseprUpdate_radial_spec (attr : AttractorFit) (m : MoleculeState)
    (dt : ℝ) (i : ℕ) (e : RadialEntry) (he : m.radial.get? i = some e) :
    ∃ e2, (vseprUpdate attr m dt).1.radial.get? i = some e2
      ∧ e2.group.id = e.group.id
      ∧ e2.group.userControlled = e.group.userControlled
      ∧ (e.group.userControlled = true → e2.group.position = e.group.position)
      ∧ ∀ j t, e.terminals.get? j = some t →
          ∃ t2, e2.terminals.get? j = some t2
            ∧ t2.userControlled = t.userControlled
            ∧ (t.userControlled = true → t2.position = t.position) := by
  have hbase : (moleculeBaseUpdate m dt).radial.get? i
      = some ⟨e.group.stepForward dt, e.terminals.map (PairGroup.stepForward dt)⟩ := by
    rw [moleculeBaseUpdate_radial_get?, he]; rfl
  rw [vseprUpdate_fst_radial]
  by_cases hb : 1 < (moleculeBaseUpdate m dt).radial.length
  · rw [if_pos hb]
    set c1 := (moleculeBaseUpdate m dt).centralAtom.position with hc1
    set gs0 := (moleculeBaseUpdate m dt).radial.map (·.group) with hgs0
    set R := repulseFromAll dt
        (trueLengthsRatioOverrideOf (applyAttraction attr dt c1 gs0).2)
        (moleculeBaseUpdate m dt).centralAtom.id
        ((applyAttraction attr dt c1 gs0).1) with hR
    rw [applyAttraction_fst]
    set ts0 := (attr (gs0.map fun g => orientationFrom c1 g.position)).1 with hts0
    have hgs : gs0.get? i = some (e.group.stepForward dt) := by
      rw [hgs0, get?_map', hbase]; rfl
    obtain ⟨g1, hg1, hid1, huc1, _, hctl1⟩ :=
      nudgeGroups_get?_spec (nudgeFraction dt) c1 ts0 gs0 i _ hgs
    have hmap : ((nudgeGroups (nudgeFraction dt) c1 ts0 gs0).map R).get? i
        = some (R g1) := by
      rw [get?_map', hg1]; rfl
    have hset : (setGroups (moleculeBaseUpdate m dt).radial
        ((nudgeGroups (nudgeFraction dt) c1 ts0 gs0).map R)).get? i
        = some { group := R g1
                 terminals := e.terminals.map (PairGroup.stepForward dt) } := by
      rw [setGroups_get?, hbase, hmap]
    rw [get?_map', hset]
    obtain ⟨e2, hEq, hgroup, hterm⟩ := angleStage_spec attr dt
      { group := R g1, terminals := e.terminals.map (PairGroup.stepForward dt) }
    refine ⟨e2, congrArg some hEq, ?_, ?_, ?_, ?_⟩
    · rw [hgroup]
      show (R g1).id = e.group.id
      rw [hR, repulseFromAll_id, hid1, PairGroup.stepForward_id]
    · rw [hgroup]
      show (R g1).userControlled = e.group.userControlled
      rw [hR, repulseFromAll_userControlled, huc1,
        PairGroup.stepForward_userControlled]
    · intro hctl
      rw [hgroup]
      show (R g1).position = e.group.position
      rw [hR, repulseFromAll_position]
      have hstep : e.group.stepForward dt = e.group :=
        PairGroup.stepForward_of_controlled dt hctl
      have : g1 = e.group.stepForward dt :=
        hctl1 (by rw [PairGroup.stepForward_userControlled]; exact hctl)
      rw [this, hstep]
    · intro j t ht
      have hbt : (e.terminals.map (PairGroup.stepForward dt)).get? j
          = some (t.stepForward dt) := by
        rw [get?_map', ht]; rfl
      obtain ⟨t2, h2, huc2, _, hctl2⟩ := hterm j (t.stepForward dt) hbt
      refine ⟨t2, h2, ?_, ?_⟩
      · rw [huc2, PairGroup.stepForward_userControlled]
      · intro hct
        have hstep : t.stepForward dt = t :=
          PairGroup.stepForward_of_controlled dt hct
        rw [hctl2 (by rw [PairGroup.stepForward_userControlled]; exact hct), hstep]
  · rw [if_neg hb]
    have hset : (moleculeBaseUpdate m dt).radial.get? i
        = some { group := e.group.stepForward dt
                 terminals := e.terminals.map (PairGroup.stepForward dt) } := hbase
    rw [get?_map', hset]
    obtain ⟨e2, hEq, hgroup, hterm⟩ := angleStage_spec attr dt
      { group := e.group.stepForward dt
        terminals := e.terminals.map (PairGroup.stepForward dt) }
    refine ⟨e2, congrArg some hEq, ?_, ?_, ?_, ?_⟩
    · rw [hgroup]
      show (e.group.stepForward dt).id = e.group.id
      exact PairGroup.stepForward_id dt e.group
    · rw [hgroup]
      show (e.group.stepForward dt).userControlled = e.group.userControlled
      exact PairGroup.stepForward_userControlled dt e.group
    · intro hctl
      rw [hgroup]
      show (e.group.stepForward dt).position = e.group.position
      rw [PairGroup.stepForward_of_controlled dt hctl]
    · intro j t ht
      have hbt : (e.terminals.map (PairGroup.stepForward dt)).get? j
          = some (t.stepForward dt) := by
        rw [get?_map', ht]; rfl
      obtain ⟨t2, h2, huc2, _, hctl2⟩ := hterm j (t.stepForward dt) hbt
      refine ⟨t2, h2, ?_, ?_⟩
      · rw [huc2, PairGroup.stepForward_userControlled]
      · intro hct
        have hstep : t.stepForward dt = t :=
          PairGroup.stepForward_of_controlled dt hct
        rw [hctl2 (by rw [PairGroup.stepForward_userControlled]; exact hct), hstep]

theorem realMoleculeUpdate_radial_spec (attr : AttractorFit) (m : MoleculeState)
    (dt : ℝ) (i : ℕ) (e : RadialEntry) (he : m.radial.get? i = some e) :
    ∃ e2, (realMoleculeUpdate attr m dt).1.radial.get? i = some e2
      ∧ e2.group.id = e.group.id
      ∧ e2.group.userControlled = e.group.userControlled
      ∧ e2.group.velocity = e.group.velocity
      ∧ (e.group.userControlled = true → e2.group.position = e.group.position)
      ∧ (e.group.velocity = 0 →
          (e2.group.position - m.centralAtom.position).mag
            = (e.group.position - m.centralAtom.position).mag)
      ∧ ∀ j t, e.terminals.get? j = some t →
          ∃ t2, e2.terminals.get? j = some t2
            ∧ t2.userControlled = t.userControlled
            ∧ t2.velocity = t.velocity
            ∧ (t.userControlled = true → t2.position = t.position) := by
  have hbase : (moleculeBaseUpdate m dt).radial.get? i
      = some ⟨e.group.stepForward dt, e.terminals.map (PairGroup.stepForward dt)⟩ := by
    rw [moleculeBaseUpdate_radial_get?, he]; rfl
  rw [realMoleculeUpdate_fst_radial]
  by_cases hb : 1 < (moleculeBaseUpdate m dt).radial.length
  · rw [if_pos hb]
    set c1 := (moleculeBaseUpdate m dt).centralAtom.position with hc1
    set gs0 := (moleculeBaseUpdate m dt).radial.map (·.group) with hgs0
    rw [applyAngleAttractionRepulsion_def]
    set ts0 := (attr (gs0.map fun g => orientationFrom c1 g.position)).1 with hts0
    have hgs : gs0.get? i = some (e.group.stepForward dt) := by
      rw [hgs0, get?_map', hbase]; rfl
    obtain ⟨g1, hg1, hid1, huc1, hvel1, hctl1, hdist1⟩ :=
      angleAdjustGroups_get?_spec (nudgeFraction dt) c1 ts0 gs0 i _ hgs
    have hset : (setGroups (moleculeBaseUpdate m dt).radial
        (angleAdjustGroups (nudgeFraction dt) c1 ts0 gs0)).get? i
        = some { group := g1
                 terminals := e.terminals.map (PairGroup.stepForward dt) } := by
      rw [setGroups_get?, hbase, hg1]
    rw [get?_map', hset]
    obtain ⟨e2, hEq, hgroup, hterm⟩ := angleStage_spec attr dt
      { group := g1, terminals := e.terminals.map (PairGroup.stepForward dt) }
    refine ⟨e2, congrArg some hEq, ?_, ?_, ?_, ?_, ?_, ?_⟩
    · rw [hgroup]
      show g1.id = e.group.id
      rw [hid1, PairGroup.stepForward_id]
    · rw [hgroup]
      show g1.userControlled = e.group.userControlled
      rw [huc1, PairGroup.stepForward_userControlled]
    · rw [hgroup]
      show g1.velocity = e.group.velocity
      rw [hvel1, PairGroup.stepForward_velocity]
    · intro hctl
      rw [hgroup]
      show g1.position = e.group.position
      have hstep : e.group.stepForward dt = e.group :=
        PairGroup.stepForward_of_controlled dt hctl
      rw [hctl1 (by rw [PairGroup.stepForward_userControlled]; exact hctl), hstep]
    · intro hvz
      rw [hgroup]
      show (g1.position - m.centralAtom.position).mag
        = (e.group.position - m.centralAtom.position).mag
      have hstep : e.group.stepForward dt = e.group :=
        PairGroup.stepForward_of_velocity_zero dt hvz
      have hceq : c1 = m.centralAtom.position := hc1
      rw [← hceq, hdist1, hstep]
    · intro j t ht
      have hbt : (e.terminals.map (PairGroup.stepForward dt)).get? j
          = some (t.stepForward dt) := by
        rw [get?_map', ht]; rfl
      obtain ⟨t2, h2, huc2, hvel2, hctl2⟩ := hterm j (t.stepForward dt) hbt
      refine ⟨t2, h2, ?_, ?_, ?_⟩
      · rw [huc2, PairGroup.stepForward_userControlled]
      · rw [hvel2, PairGroup.stepForward_velocity]
      · intro hct
        have hstep : t.stepForward dt = t :=
          PairGroup.stepForward_of_controlled dt hct
        rw [hctl2 (by rw [PairGroup.stepForward_userControlled]; exact hct), hstep]
  · rw [if_neg hb]
    rw [get?_map', hbase]
    obtain ⟨e2, hEq, hgroup, hterm⟩ := angleStage_spec attr dt
      { group := e.group.stepForward dt
        terminals := e.terminals.map (PairGroup.stepForward dt) }
    refine ⟨e2, congrArg some hEq, ?_, ?_, ?_, ?_, ?_, ?_⟩
    · rw [hgroup]
      exact PairGroup.stepForward_id dt e.group
    · rw [hgroup]
      exact PairGroup.stepForward_userControlled dt e.group
    · rw [hgroup]
      exact PairGroup.stepForward_velocity dt e.group
    · intro hctl
      rw [hgroup]
      show (e.group.stepForward dt).position = e.group.position
      rw [PairGroup.stepForward_of_controlled dt hctl]
    · intro hvz
      rw [hgroup]
      show ((e.group.stepForward dt).position - m.centralAtom.position).mag
        = (e.group.position - m.centralAtom.position).mag
      rw [PairGroup.stepForward_of_velocity_zero dt hvz]
    · intro j t ht
      have hbt : (e.terminals.map (PairGroup.stepForward dt)).get? j
          = some (t.stepForward dt) := by
        rw [get?_map', ht]; rfl
      obtain ⟨t2, h2, huc2, hvel2, hctl2⟩ := hterm j (t.stepForward dt) hbt
      refine ⟨t2, h2, ?_, ?_, ?_⟩
      · rw [huc2, PairGroup.stepForward_userControlled]
      · rw [hvel2, PairGroup.stepForward_velocity]
      · intro hct
        have hstep : t.stepForward dt = t :=
          PairGroup.stepForward_of_controlled dt hct
        rw [hctl2 (by rw [PairGroup.stepForward_userControlled]; exact hct), hstep]

theorem RadialEntry.entry_ext {a b : RadialEntry} (h1 : a.group = b.group)
    (h2 : a.terminals = b.terminals) : a = b := by
  cases a; cases b; simp_all

theorem PairGroup.repulseFrom_of_other_controlled (g : PairGroup)
    {other : PairGroup} (dt ratio : ℝ) (h : other.userControlled = true) :
    g.repulseFrom other dt ratio = g := by
  unfold PairGroup.repulseFrom
  rw [if_pos (by simp [h])]

theorem repulseFromAll_of_controlled (dt ratio : ℝ) (cid : ℕ)
    (all : List PairGroup) {g : PairGroup} (h : g.userControlled = true) :
    repulseFromAll dt ratio cid all g = g := by
  unfold repulseFromAll
  have key : ∀ (os : List PairGroup) (acc : PairGroup),
      acc.userControlled = true →
      (os.foldl
        (fun acc o =>
          if o.id ≠ g.id ∧ g.id ≠ cid then acc.repulseFrom o dt ratio else acc)
        acc) = acc := by
    intro os
    induction os with
    | nil => intro acc _; rfl
    | cons o os ih =>
      intro acc hacc
      simp only [List.foldl_cons]
      have hsame : (if o.id ≠ g.id ∧ g.id ≠ cid
          then acc.repulseFrom o dt ratio else acc) = acc := by
        split
        · exact PairGroup.repulseFrom_of_controlled o dt ratio hacc
        · rfl
      rw [hsame]
      exact ih acc hacc
  exact key all g h

theorem sample_mag3 : Vec3.mag ⟨3, 0, 0⟩ = 3 := by
  unfold Vec3.mag
  rw [show (3:ℝ) ^ 2 + 0 ^ 2 + 0 ^ 2 = 3 ^ 2 by norm_num]
  exact Real.sqrt_sq (by norm_num)

theorem sample_stepA : PairGroup.stepForward 1 sampleGroupA = sampleGroupA1 := by
  unfold PairGroup.stepForward sampleGroupA sampleGroupA1
  rw [if_neg (by simp)]
  refine PairGroup.fields_ext rfl ?_ rfl rfl rfl rfl
  apply Vec3.ext_iff.mpr
  norm_num

theorem sample_base :
    moleculeBaseUpdate sampleMolecule 1
      = ⟨sampleCentral, [⟨sampleGroupA1, []⟩, ⟨sampleGroupB, []⟩]⟩ := by
  unfold moleculeBaseUpdate sampleMolecule
  simp only [List.map_cons, List.map_nil]
  rw [sample_stepA, PairGroup.stepForward_of_controlled 1 rfl]

theorem sample_subA : sampleGroupA1.position - sampleCentral.position
    = (⟨3, 0, 0⟩ : Vec3) := by
  apply Vec3.ext_iff.mpr
  refine ⟨?_, ?_, ?_⟩ <;> simp [sampleGroupA1, sampleCentral]

theorem sample_nudgeA (f : ℝ) (t : Vec3)
    (ht : t = orientationFrom sampleCentral.position sampleGroupA1.position) :
    nudgeGroup f sampleCentral.position t sampleGroupA1 = sampleGroupA1 := by
  have horient : orientationFrom sampleCentral.position sampleGroupA1.position
      = (1 / 3 : ℝ) • (⟨3, 0, 0⟩ : Vec3) := by
    unfold orientationFrom
    rw [sample_subA, sample_mag3]
    rw [if_pos (by norm_num)]
    unfold Vec3.normalized
    rw [sample_mag3]
  unfold nudgeGroup
  rw [if_neg (by simp [sampleGroupA1])]
  refine PairGroup.fields_ext rfl ?_ rfl rfl rfl rfl
  simp only
  rw [ht, horient, sample_subA, sample_mag3]
  apply Vec3.ext_iff.mpr
  refine ⟨?_, ?_, ?_⟩ <;> simp [sampleGroupA1, sampleCentral]

theorem sample_repA (dt ratio : ℝ) (cid : ℕ) :
    repulseFromAll dt ratio cid [sampleGroupA1, sampleGroupB] sampleGroupA1
      = sampleGroupA1 := by
  unfold repulseFromAll
  simp only [List.foldl_cons, List.foldl_nil]
  have hinner : (if sampleGroupA1.id ≠ sampleGroupA1.id ∧ sampleGroupA1.id ≠ cid
      then sampleGroupA1.repulseFrom sampleGroupA1 dt ratio
      else sampleGroupA1) = sampleGroupA1 := by
    rw [if_neg (by simp)]
  rw [hinner]
  split
  · exact PairGroup.repulseFrom_of_other_controlled sampleGroupA1 dt ratio
      (show sampleGroupB.userControlled = true from rfl)
  · rfl

theorem sample_vsepr_radial :
    (vseprUpdate attractorFitId sampleMolecule 1).1.radial
      = [⟨sampleGroupA1, []⟩, ⟨sampleGroupB, []⟩] := by
  have hb : 1 < (moleculeBaseUpdate sampleMolecule 1).radial.length := by
    rw [sample_base]
    simp
  rw [vseprUpdate_fst_radial, if_pos hb, applyAttraction_fst, sample_base]
  simp only [attractorFitId, List.map_cons, List.map_nil]
  simp only [nudgeGroups]
  rw [sample_nudgeA _ _ rfl, nudgeGroup_of_controlled _ _ _ rfl]
  simp only [List.map_cons, List.map_nil]
  rw [sample_repA, repulseFromAll_of_controlled _ _ _ _ rfl]
  simp only [setGroups]
  simp

/-- C5: For every molecule, attractor fit and dt, both update policies leave
the position of every user-controlled pair group unchanged (attraction and
repulsion skip it), while a group that is not user-controlled can still move
during the same tick (witnessed by a concrete molecule). -/
theorem update_skips_user_controlled_groups :
    (∀ (attr : AttractorFit) (m : MoleculeState) (dt : ℝ),
        preservesControlledPositions m (vseprUpdate attr m dt).1
          ∧ preservesControlledPositions m (realMoleculeUpdate attr m dt).1)
      ∧ ∃ (attr : AttractorFit) (m : MoleculeState) (dt : ℝ)
          (e e2 : RadialEntry),
            m.radial.get? 0 = some e
              ∧ (vseprUpdate attr m dt).1.radial.get? 0 = some e2
              ∧ e.group.userControlled = false
              ∧ e2.group.position ≠ e.group.position := by
  constructor
  · intro attr m dt
    constructor
    · constructor
      · intro _
        rw [vseprUpdate_centralAtom]
      · intro i e he0
        have he := Option.mem_def.mp he0
        obtain ⟨e2, h2, _, _, hpos, hterm⟩ := vseprUpdate_radial_spec attr m dt i e he
        refine ⟨e2, Option.mem_def.mpr h2, hpos, ?_⟩
        intro j t ht0
        obtain ⟨t2, ht2, _, hctl⟩ := hterm j t (Option.mem_def.mp ht0)
        exact ⟨t2, Option.mem_def.mpr ht2, hctl⟩
    · constructor
      · intro _
        rw [realMoleculeUpdate_centralAtom]
      · intro i e he0
        have he := Option.mem_def.mp he0
        obtain ⟨e2, h2, _, _, _, hpos, _, hterm⟩ :=
          realMoleculeUpdate_radial_spec attr m dt i e he
        refine ⟨e2, Option.mem_def.mpr h2, hpos, ?_⟩
        intro j t ht0
        obtain ⟨t2, ht2, _, _, hctl⟩ := hterm j t (Option.mem_def.mp ht0)
        exact ⟨t2, Option.mem_def.mpr ht2, hctl⟩
  · refine ⟨attractorFitId, sampleMolecule, 1, ⟨sampleGroupA, []⟩,
      ⟨sampleGroupA1, []⟩, rfl, ?_, rfl, ?_⟩
    · rw [sample_vsepr_radial]
      rfl
    · show sampleGroupA1.position ≠ sampleGroupA.position
      exact vne_of_x (by norm_num [sampleGroupA1, sampleGroupA])

/-- Witness for C5: at the sample molecule, the user-controlled exclusion
property of the VSEPR update holds. -/
theorem update_skips_user_controlled_groups_witness :
    preservesControlledPositions sampleMolecule
      (vseprUpdate attractorFitId sampleMolecule 1).1 :=
  (update_skips_user_controlled_groups.1 attractorFitId sampleMolecule 1).1

/-- Witness for C6 at the concrete timestep dt = 5 with the identity update. -/
theorem moleculeShapesModel_step_clamps_dt_witness :
    ∃ dtUsed : ℝ,
      moleculeShapesModelStep (fun (m : ℝ) (_ : ℝ) => m) 0 5
          = (fun (m : ℝ) (_ : ℝ) => m) 0 dtUsed
        ∧ dtUsed = min 5 0.2 ∧ dtUsed ≤ 0.2 ∧ dtUsed ≤ 5 :=
  moleculeShapesModel_step_clamps_dt ℝ (fun m _ => m) 0 5

theorem setGroups_nil : ∀ es : List RadialEntry, setGroups es [] = es := by
  intro es
  induction es with
  | nil => rfl
  | cons e es ih => simp [setGroups, ih]

theorem realMoleculeUpdate_snd (attr : AttractorFit) (m : MoleculeState)
    (dt : ℝ) :
    (realMoleculeUpdate attr m dt).2
      = (if 1 < (moleculeBaseUpdate m dt).radial.length
          then [UpdateCall.anglePass (moleculeBaseUpdate m dt).centralAtom.id]
          else [])
        ++ ((if 1 < (moleculeBaseUpdate m dt).radial.length
              then
                setGroups (moleculeBaseUpdate m dt).radial
                  (applyAngleAttractionRepulsion attr dt
                    (moleculeBaseUpdate m dt).centralAtom.position
                    ((moleculeBaseUpdate m dt).radial.map (·.group)))
              else (moleculeBaseUpdate m dt).radial).map fun e =>
            if 1 < 1 + e.terminals.length
            then [UpdateCall.anglePass e.group.id] else []).flatten := by
  simp only [realMoleculeUpdate, List.map_map]
  split
  · congr 1
    congr 1
    exact List.map_congr_left fun e _ => by
      by_cases hc : 1 < 1 + e.terminals.length <;> simp [hc, Function.comp]
  · congr 1
    congr 1
    exact List.map_congr_left fun e _ => by
      by_cases hc : 1 < 1 + e.terminals.length <;> simp [hc, Function.comp]

theorem flatten_map_ite_anglePass :
    ∀ l : List RadialEntry,
      (l.map fun e =>
          if 1 < 1 + e.terminals.length
          then [UpdateCall.anglePass e.group.id] else []).flatten
        = (l.filter fun e => decide (1 < 1 + e.terminals.length)).map
            fun e => UpdateCall.anglePass e.group.id := by
  intro l
  induction l with
  | nil => simp
  | cons e l ih =>
    simp only [List.map_cons, List.flatten_cons, List.filter_cons]
    by_cases hc : 1 < 1 + e.terminals.length
    · rw [if_pos hc, if_pos (by simp [hc])]
      simp only [List.singleton_append, List.map_cons]
      rw [ih]
    · rw [if_neg hc, if_neg (by simp [hc]), List.nil_append, ih]

theorem setGroups_filter_angle :
    ∀ (es : List RadialEntry) (gs : List PairGroup),
      gs.map (·.id) = es.map (·.group.id) →
      ((setGroups es gs).filter fun e =>
          decide (1 < 1 + e.terminals.length)).map
          (fun e => UpdateCall.anglePass e.group.id)
        = (es.filter fun e => decide (1 < 1 + e.terminals.length)).map
            fun e => UpdateCall.anglePass e.group.id := by
  intro es
  induction es with
  | nil => intro gs _; simp [setGroups]
  | cons e es ih =>
    intro gs hids
    cases gs with
    | nil => rw [setGroups_nil]
    | cons g gs =>
      simp only [List.map_cons, List.cons.injEq] at hids
      obtain ⟨hgid, hrest⟩ := hids
      simp only [setGroups, List.filter_cons]
      by_cases hc : 1 < 1 + e.terminals.length
      · rw [if_pos (by simp [hc]), if_pos (by simp [hc])]
        simp only [List.map_cons]
        rw [ih gs hrest]
        have hhead : ({ e with group := g } : RadialEntry).group.id = e.group.id := hgid
        rw [hhead]
      · rw [if_neg (by simp [hc]), if_neg (by simp [hc])]
        exact ih gs hrest

theorem base_filter_angle (m : MoleculeState) (dt : ℝ) :
    (((moleculeBaseUpdate m dt).radial.filter fun e =>
        decide (1 < 1 + e.terminals.length)).map
        fun e => UpdateCall.anglePass e.group.id)
      = ((m.radial.filter fun e => decide (1 < 1 + e.terminals.length)).map
          fun e => UpdateCall.anglePass e.group.id) := by
  unfold moleculeBaseUpdate
  simp only
  induction m.radial with
  | nil => simp
  | cons e l ih =>
    simp only [List.map_cons, List.filter_cons]
    by_cases hc : 1 < 1 + e.terminals.length
    · rw [if_pos (by simp [hc]), if_pos (by simp [hc])]
      simp only [List.map_cons]
      rw [ih, PairGroup.stepForward_id]
    · rw [if_neg (by simp [hc]), if_neg (by simp [hc])]
      exact ih

/-- C4: For every RealMolecule state at rest, every attractor fit and every
dt, `RealMolecule.update( dt )` performs, beyond the base `Molecule.update`,
exactly one `applyAngleAttractionRepulsion` per atom with more than one
neighbor and nothing else — in particular it never invokes `repulseFrom` —
and the distance of every radial group from the central atom is unchanged
by the tick, with all velocities remaining zero. -/
theorem realMoleculeUpdate_angle_only
    (attr : AttractorFit) (m : MoleculeState) (dt : ℝ)
    (hvel : ∀ i e, m.radial.get? i = some e → e.group.velocity = 0) :
    ((realMoleculeUpdate attr m dt).2
        = (manyNeighborAtomIds m).map UpdateCall.anglePass)
      ∧ (∀ call ∈ (realMoleculeUpdate attr m dt).2, call.isRepulse = false)
      ∧ (realMoleculeUpdate attr m dt).1.centralAtom = m.centralAtom
      ∧ ∀ i e, m.radial.get? i = some e →
          ∃ e2, (realMoleculeUpdate attr m dt).1.radial.get? i = some e2
            ∧ (e2.group.position - m.centralAtom.position).mag
                = (e.group.position - m.centralAtom.position).mag
            ∧ e2.group.velocity = 0
            ∧ ∀ j t, e.terminals.get? j = some t →
                ∃ t2, e2.terminals.get? j = some t2 ∧ t2.velocity = t.velocity := by
  have hids : (applyAngleAttractionRepulsion attr dt
        (moleculeBaseUpdate m dt).centralAtom.position
        ((moleculeBaseUpdate m dt).radial.map (·.group))).map (·.id)
      = (moleculeBaseUpdate m dt).radial.map (·.group.id) := by
    rw [applyAngleAttractionRepulsion_def, angleAdjustGroups_map_id]
    simp [List.map_map, Function.comp]
  have htrace : (realMoleculeUpdate attr m dt).2
      = (manyNeighborAtomIds m).map UpdateCall.anglePass := by
    rw [realMoleculeUpdate_snd, flatten_map_ite_anglePass]
    by_cases hb : 1 < (moleculeBaseUpdate m dt).radial.length
    · rw [if_pos hb, if_pos hb, setGroups_filter_angle _ _ hids, base_filter_angle]
      unfold manyNeighborAtomIds
      rw [if_pos (by rwa [moleculeBaseUpdate_radial_length] at hb)]
      rw [moleculeBaseUpdate_centralAtom]
      simp [List.map_map, Function.comp]
    · rw [if_neg hb, if_neg hb, base_filter_angle]
      unfold manyNeighborAtomIds
      rw [if_neg (by rwa [moleculeBaseUpdate_radial_length] at hb)]
      simp [List.map_map, Function.comp]
  refine ⟨htrace, ?_, realMoleculeUpdate_centralAtom attr m dt, ?_⟩
  · intro call hcall
    rw [htrace] at hcall
    obtain ⟨a, _, rfl⟩ := List.mem_map.mp hcall
    rfl
  · intro i e he
    obtain ⟨e2, h2, _, _, hvelEq, _, hdist, hterm⟩ :=
      realMoleculeUpdate_radial_spec attr m dt i e he
    refine ⟨e2, h2, hdist (hvel i e he), ?_, ?_⟩
    · rw [hvelEq]; exact hvel i e he
    · intro j t ht
      obtain ⟨t2, ht2, _, hvelT, _⟩ := hterm j t ht
      exact ⟨t2, ht2, hvelT⟩

/-- Witness for C4 at the sample molecule at rest with the sample attractor
fit and dt = 1. -/
theorem realMoleculeUpdate_angle_only_witness :
    ((realMoleculeUpdate attractorFitId sampleMoleculeStill 1).2
        = (manyNeighborAtomIds sampleMoleculeStill).map UpdateCall.anglePass)
      ∧ (∀ call ∈ (realMoleculeUpdate attractorFitId sampleMoleculeStill 1).2,
          call.isRepulse = false)
      ∧ (realMoleculeUpdate attractorFitId sampleMoleculeStill 1).1.centralAtom
          = sampleMoleculeStill.centralAtom
      ∧ ∀ i e, sampleMoleculeStill.radial.get? i = some e →
          ∃ e2, (realMoleculeUpdate attractorFitId sampleMoleculeStill 1).1.radial.get? i
              = some e2
            ∧ (e2.group.position - sampleMoleculeStill.centralAtom.position).mag
                = (e.group.position - sampleMoleculeStill.centralAtom.position).mag
            ∧ e2.group.velocity = 0
            ∧ ∀ j t, e.terminals.get? j = some t →
                ∃ t2, e2.terminals.get? j = some t2 ∧ t2.velocity = t.velocity :=
  realMoleculeUpdate_angle_only attractorFitId sampleMoleculeStill 1 (by
    intro i e he
    rcases i with _ | _ | i
    · simp [sampleMoleculeStill] at he
      rw [← he]
      rfl
    · simp [sampleMoleculeStill] at he
      rw [← he]
      rfl
    · simp [sampleMoleculeStill] at he)
